import Mathlib

/-!
Shallow embedding of the `anywidget_graph.converters` package
(`common.py`, `cypher.py`, `gql.py`, `gremlin.py`, `sparql.py`,
`graphql.py`) and proofs about its result-normalization behaviour.

The converters consume JSON-like values (the shapes produced by JSON
decoding and by the value-map style driver results): `None`, strings,
integers, booleans, lists and string-keyed mappings.  `Val` is that
universe.  Driver objects carrying Python attributes (`.labels`,
`.element_id`, `.outV`, ...) are outside this universe; on every `Val`
an attribute-presence test (`hasattr`) for such names is `False`, while
`hasattr(v, "items")` holds exactly for mappings.  Each embedded
function notes, at the point of use, how the corresponding duck-typing
check resolves on this universe.

Mappings are modelled as insertion-ordered association lists, the
observable content of a Python `dict` (unique keys when built by the
converters; lookups take the first matching key, assignment replaces
the first matching key in place, else appends — exactly CPython's
insertion-order semantics for unique-keyed dicts).

Fallible code paths (Python statements that can raise `TypeError` or
`AttributeError` on malformed input) are modelled in `Except String`.
-/

set_option maxHeartbeats 1000000

namespace AG

/-- JSON-like Python value universe consumed by the converters. -/
inductive Val where
  | null : Val
  | str (s : String) : Val
  | int (n : Int) : Val
  | bool (b : Bool) : Val
  | list (xs : List Val) : Val
  | dict (kvs : List (String × Val)) : Val

mutual

def valDeq : (a b : Val) → Decidable (a = b)
  | .null, .null => isTrue rfl
  | .null, .str _ => isFalse (by intro h; cases h)
  | .null, .int _ => isFalse (by intro h; cases h)
  | .null, .bool _ => isFalse (by intro h; cases h)
  | .null, .list _ => isFalse (by intro h; cases h)
  | .null, .dict _ => isFalse (by intro h; cases h)
  | .str _, .null => isFalse (by intro h; cases h)
  | .str s, .str t =>
      if h : s = t then isTrue (by rw [h]) else isFalse (by intro hc; cases hc; exact h rfl)
  | .str _, .int _ => isFalse (by intro h; cases h)
  | .str _, .bool _ => isFalse (by intro h; cases h)
  | .str _, .list _ => isFalse (by intro h; cases h)
  | .str _, .dict _ => isFalse (by intro h; cases h)
  | .int _, .null => isFalse (by intro h; cases h)
  | .int _, .str _ => isFalse (by intro h; cases h)
  | .int m, .int n =>
      if h : m = n then isTrue (by rw [h]) else isFalse (by intro hc; cases hc; exact h rfl)
  | .int _, .bool _ => isFalse (by intro h; cases h)
  | .int _, .list _ => isFalse (by intro h; cases h)
  | .int _, .dict _ => isFalse (by intro h; cases h)
  | .bool _, .null => isFalse (by intro h; cases h)
  | .bool _, .str _ => isFalse (by intro h; cases h)
  | .bool _, .int _ => isFalse (by intro h; cases h)
  | .bool a, .bool b =>
      if h : a = b then isTrue (by rw [h]) else isFalse (by intro hc; cases hc; exact h rfl)
  | .bool _, .list _ => isFalse (by intro h; cases h)
  | .bool _, .dict _ => isFalse (by intro h; cases h)
  | .list _, .null => isFalse (by intro h; cases h)
  | .list _, .str _ => isFalse (by intro h; cases h)
  | .list _, .int _ => isFalse (by intro h; cases h)
  | .list _, .bool _ => isFalse (by intro h; cases h)
  | .list xs, .list ys =>
      match valListDeq xs ys with
      | isTrue h => isTrue (by rw [h])
      | isFalse h => isFalse (by intro hc; cases hc; exact h rfl)
  | .list _, .dict _ => isFalse (by intro h; cases h)
  | .dict _, .null => isFalse (by intro h; cases h)
  | .dict _, .str _ => isFalse (by intro h; cases h)
  | .dict _, .int _ => isFalse (by intro h; cases h)
  | .dict _, .bool _ => isFalse (by intro h; cases h)
  | .dict _, .list _ => isFalse (by intro h; cases h)
  | .dict xs, .dict ys =>
      match valKvsDeq xs ys with
      | isTrue h => isTrue (by rw [h])
      | isFalse h => isFalse (by intro hc; cases hc; exact h rfl)

def valListDeq : (a b : List Val) → Decidable (a = b)
  | [], [] => isTrue rfl
  | [], _ :: _ => isFalse (by intro h; cases h)
  | _ :: _, [] => isFalse (by intro h; cases h)
  | x :: xs, y :: ys =>
      match valDeq x y with
      | isFalse h => isFalse (by intro hc; injection hc with h1 h2; exact h h1)
      | isTrue h1 =>
          match valListDeq xs ys with
          | isTrue h2 => isTrue (by rw [h1, h2])
          | isFalse h2 => isFalse (by intro hc; injection hc with ha hb; exact h2 hb)

def valKvsDeq : (a b : List (String × Val)) → Decidable (a = b)
  | [], [] => isTrue rfl
  | [], _ :: _ => isFalse (by intro h; cases h)
  | _ :: _, [] => isFalse (by intro h; cases h)
  | (k, v) :: xs, (k2, v2) :: ys =>
      if hk : k = k2 then
        match valDeq v v2 with
        | isFalse h => isFalse (by intro hc; injection hc with h1 h2; rw [Prod.ext_iff] at h1; exact h h1.2)
        | isTrue h1 =>
            match valKvsDeq xs ys with
            | isTrue h2 => isTrue (by rw [hk, h1, h2])
            | isFalse h2 => isFalse (by intro hc; injection hc with ha hb; exact h2 hb)
      else isFalse (by intro hc; injection hc with h1 h2; rw [Prod.ext_iff] at h1; exact hk h1.1)

end

instance : DecidableEq Val := valDeq

def exceptDeq {ε α : Type} [DecidableEq ε] [DecidableEq α] :
    (a b : Except ε α) → Decidable (a = b)
  | .error e, .error f =>
      if h : e = f then isTrue (by rw [h]) else isFalse (by intro hc; cases hc; exact h rfl)
  | .error _, .ok _ => isFalse (by intro hc; cases hc)
  | .ok _, .error _ => isFalse (by intro hc; cases hc)
  | .ok x, .ok y =>
      if h : x = y then isTrue (by rw [h]) else isFalse (by intro hc; cases hc; exact h rfl)

instance {ε α : Type} [DecidableEq ε] [DecidableEq α] : DecidableEq (Except ε α) := exceptDeq

/-- Python mapping content: ordered key/value pairs. -/
abbrev Obj := List (String × Val)

/-- First-match lookup, the observable behaviour of `d[k]` / `d.get(k)`
on a unique-keyed Python dict. -/
def alGet {α : Type} : List (String × α) → String → Option α
  | [], _ => none
  | (k0, v0) :: rest, k => if k0 = k then some v0 else alGet rest k

/-- `d.get(k, default)`. -/
def alGetD {α : Type} (l : List (String × α)) (k : String) (d : α) : α :=
  (alGet l k).getD d

/-- `k in d`. -/
def alContains {α : Type} (l : List (String × α)) (k : String) : Bool :=
  (alGet l k).isSome

/-- `d[k] = v`: replace the first matching key in place, else append
(CPython keeps the insertion position of an existing key). -/
def alSet {α : Type} : List (String × α) → String → α → List (String × α)
  | [], k, v => [(k, v)]
  | (k0, v0) :: rest, k, v =>
      if k0 = k then (k0, v) :: rest else (k0, v0) :: alSet rest k v

/-- `d.update(other)`: assign every pair of `other` in order. -/
def alUpdate {α : Type} (l other : List (String × α)) : List (String × α) :=
  other.foldl (fun acc kv => alSet acc kv.1 kv.2) l

/-- Keys in insertion order. -/
def alKeys {α : Type} (l : List (String × α)) : List String :=
  l.map Prod.fst

/-- Python truthiness of a `Val` (`bool(v)`). -/
def truthy : Val → Bool
  | .null => false
  | .str s => s != ""
  | .int n => n != 0
  | .bool b => b
  | .list xs => !xs.isEmpty
  | .dict kvs => !kvs.isEmpty

/-- The single-quote character used by Python `repr` for strings. -/
def sq : String := String.singleton (Char.ofNat 39)

/-- `str()` of an atomic value (`None`, `int`, `bool`). -/
def pyStrAtom : Val → String
  | .null => "None"
  | .int n => toString n
  | .bool true => "True"
  | .bool false => "False"
  | .str s => s
  | _ => ""

mutual

/-- Python `repr(v)`.  String escaping of quotes and backslashes inside
the literal is not modelled (no converter behaviour proved here depends
on it); containers render exactly as CPython renders unique-keyed
JSON-decoded data. -/
def pyRepr : Val → String
  | .str s => sq ++ s ++ sq
  | .list xs => "[" ++ pyReprList xs ++ "]"
  | .dict kvs => "\x7b" ++ pyReprDict kvs ++ "\x7d"
  | v => pyStrAtom v

def pyReprList : List Val → String
  | [] => ""
  | [x] => pyRepr x
  | x :: y :: rest => pyRepr x ++ ", " ++ pyReprList (y :: rest)

def pyReprDict : List (String × Val) → String
  | [] => ""
  | [(k, v)] => sq ++ k ++ sq ++ ": " ++ pyRepr v
  | (k, v) :: p :: rest =>
      sq ++ k ++ sq ++ ": " ++ pyRepr v ++ ", " ++ pyReprDict (p :: rest)

end

/-- Python `str(v)`. -/
def pyStr : Val → String
  | .str s => s
  | .list xs => pyRepr (.list xs)
  | .dict kvs => pyRepr (.dict kvs)
  | v => pyStrAtom v

/-- CPython memory identity `id(obj)` is not observable in this model.
The converters reach it only for a mapping lacking an `id` key (and for
non-mapping values, which the call sites never pass); it is modelled as
a constant.  No theorem below depends on its value. -/
def memId (_ : Val) : Int := 0

/-! ## `common.py` -/

/-- `is_node` (common.py).  The two attribute-based checks
(`labels`/`element_id`, `labels`/`properties`) are `False` on every
JSON-like value, leaving the plain-mapping check. -/
def is_node (v : Val) : Bool :=
  match v with
  | .dict kvs => alContains kvs "id"
  | _ => false

/-- `is_relationship` (common.py).  Attribute-based checks are `False`
on this universe, leaving the plain-mapping check. -/
def is_relationship (v : Val) : Bool :=
  match v with
  | .dict kvs => alContains kvs "source" && alContains kvs "target"
  | _ => false

/-- `get_node_id` (common.py).  `element_id` / `id` attributes are
absent on JSON-like values; a mapping yields `str(node.get("id", id(node)))`,
anything else `str(id(node))`. -/
def get_node_id (v : Val) : String :=
  match v with
  | .dict kvs => pyStr (alGetD kvs "id" (.int (memId v)))
  | _ => pyStr (.int (memId v))

/-- `node_to_dict` (common.py) on a JSON-like value.  The
`labels`/`properties` attribute branches do not fire; a mapping takes
the `hasattr(node, "items")` branch (`result.update(dict(node))`),
which in particular overwrites the stringified `"id"` entry with the
mapping's raw id value.  Afterwards a top-level `name` entry is copied
to `label` when no `label` entry exists. -/
def node_to_dict (v : Val) : Obj :=
  let result : Obj := [("id", .str (get_node_id v))]
  let result :=
    match v with
    | .dict kvs => alUpdate result kvs
    | _ => result
  if !alContains result "label" && alContains result "name" then
    alSet result "label" (alGetD result "name" .null)
  else
    result

/-- `relationship_to_dict` (common.py) on a JSON-like value.  Only the
plain-mapping branches fire: `source`/`target` are stringified with
empty-string defaults, `type` (else `label`) is stringified into
`label`, and the property-copy branches are skipped
(`hasattr(rel, "items") and not isinstance(rel, dict)` is `False`). -/
def relationship_to_dict (v : Val) : Obj :=
  match v with
  | .dict kvs =>
      let result : Obj :=
        [("source", .str (pyStr (alGetD kvs "source" (.str "")))),
         ("target", .str (pyStr (alGetD kvs "target" (.str ""))))]
      if alContains kvs "type" then
        alSet result "label" (.str (pyStr (alGetD kvs "type" .null)))
      else if alContains kvs "label" then
        alSet result "label" (.str (pyStr (alGetD kvs "label" .null)))
      else
        result
  | _ => []

/-! ## `cypher.py` (`CypherConverter`, aliased as `GQLConverter` in `gql.py`) -/

/-- Canonical output (`GraphData` in `base.py`). -/
structure GraphData where
  nodes : List Obj
  edges : List Obj
  deriving DecidableEq

/-- Accumulator state: the insertion-ordered node map plus the edge
list, as held by `convert`'s local variables. -/
structure GraphAcc where
  nodes : List (String × Obj)
  edges : List Obj
  deriving DecidableEq

def GraphAcc.empty : GraphAcc := ⟨[], []⟩

/-- `list(result) if hasattr(result, "__iter__") else [result]`:
iterating a mapping yields its keys, iterating a string yields its
one-character substrings; `None`, numbers and booleans are not
iterable. -/
def pyIterTop (result : Val) : List Val :=
  match result with
  | .list xs => xs
  | .dict kvs => kvs.map (fun kv => .str kv.1)
  | .str s => s.toList.map (fun c => .str (String.singleton c))
  | v => [v]

/-- `CypherConverter._extract_items`.  On this universe only a mapping
has an `items` attribute (and none has `data`), so a mapping yields its
pairs and everything else yields `[]`. -/
def extract_items (record : Val) : Obj :=
  match record with
  | .dict kvs => kvs
  | _ => []

mutual

/-- `CypherConverter._process_value`.  `None` is dropped; the path
branch (`nodes`/`relationships` attributes) never fires on JSON-like
values; a node-classified value is inserted first-seen-wins; a
relationship-classified value is appended; lists recurse elementwise;
anything else is ignored. -/
def processValue (v : Val) (acc : GraphAcc) : GraphAcc :=
  match v with
  | .dict kvs =>
      if is_node (.dict kvs) then
        let nid := get_node_id (.dict kvs)
        if alContains acc.nodes nid then acc
        else { acc with nodes := acc.nodes ++ [(nid, node_to_dict (.dict kvs))] }
      else if is_relationship (.dict kvs) then
        { acc with edges := acc.edges ++ [relationship_to_dict (.dict kvs)] }
      else acc
  | .list xs => processValueList xs acc
  | _ => acc

def processValueList (xs : List Val) (acc : GraphAcc) : GraphAcc :=
  match xs with
  | [] => acc
  | x :: rest => processValueList rest (processValue x acc)

end

/-- The inner loop of `CypherConverter.convert`: process each record
item's value in order. -/
def processItems (o : Obj) (acc : GraphAcc) : GraphAcc :=
  match o with
  | [] => acc
  | kv :: rest => processItems rest (processValue kv.2 acc)

/-- The record loop of `CypherConverter.convert`: for each record, for
each of its items, process the value. -/
def processRecords (records : List Val) (acc : GraphAcc) : GraphAcc :=
  match records with
  | [] => acc
  | r :: rest => processRecords rest (processItems (extract_items r) acc)

/-- `CypherConverter.convert` up to the final
`list(nodes.values())` projection. -/
def cypherAcc (result : Val) : GraphAcc :=
  processRecords (pyIterTop result) .empty

/-- `CypherConverter.convert`. -/
def CypherConverter.convert (result : Val) : GraphData :=
  let acc := cypherAcc result
  ⟨acc.nodes.map Prod.snd, acc.edges⟩

/-- `GQLConverter` (`gql.py`) is an alias of `CypherConverter`. -/
def GQLConverter.convert (result : Val) : GraphData :=
  CypherConverter.convert result

/-! ## `gremlin.py` (`GremlinConverter`) -/

/-- `GremlinConverter._flatten_value`: a list of length one becomes its
element; everything else is unchanged. -/
def flatten_value (v : Val) : Val :=
  match v with
  | .list [x] => x
  | v => v

/-- `str(item.get(k, {}).get("id", item.get(k, "")))` from
`_process_dict`'s edge branch.  When the value under `k` is present but
not a mapping, the inner `.get` raises `AttributeError`. -/
def gremlinEdgeEndpoint (kvs : Obj) (k : String) : Except String String :=
  match alGetD kvs k (.dict []) with
  | .dict inner => .ok (pyStr (alGetD inner "id" (alGetD kvs k (.str ""))))
  | _ => .error "AttributeError"

/-- The vertex key in `_process_dict`: `str(item["id"])`. -/
def gremlinVertexId (kvs : Obj) : String :=
  pyStr (alGetD kvs "id" .null)

/-- One entry of the vertex property loop in
`GremlinConverter._process_dict`: copy every entry other than `id`,
flattened. -/
def gremlinVertexStep (node : Obj) (kv : String × Val) : Obj :=
  if kv.1 ≠ "id" then alSet node kv.1 (flatten_value kv.2) else node

/-- The vertex branch of `GremlinConverter._process_dict`: start from
the stringified `id`, then copy every other entry flattened. -/
def gremlinVertexFromDict (kvs : Obj) : Obj :=
  kvs.foldl gremlinVertexStep [("id", .str (gremlinVertexId kvs))]

/-- One entry of the edge property loop in
`GremlinConverter._process_dict`: copy every entry outside
`id`/`label`/`IN`/`OUT`, flattened. -/
def gremlinEdgePropStep (e : Obj) (kv : String × Val) : Obj :=
  if kv.1 ≠ "id" && kv.1 ≠ "label" && kv.1 ≠ "IN" && kv.1 ≠ "OUT"
  then alSet e kv.1 (flatten_value kv.2) else e

/-- The edge branch of `GremlinConverter._process_dict`: endpoints from
the `OUT`/`IN` entries (fallible), the stringified `label`, then every
entry outside `id`/`label`/`IN`/`OUT` flattened. -/
def gremlinEdgeFromDict (kvs : Obj) : Except String Obj :=
  match gremlinEdgeEndpoint kvs "OUT" with
  | .error e => .error e
  | .ok src =>
      match gremlinEdgeEndpoint kvs "IN" with
      | .error e => .error e
      | .ok tgt =>
          .ok (kvs.foldl gremlinEdgePropStep
            [("source", .str src), ("target", .str tgt),
             ("label", .str (pyStr (alGetD kvs "label" (.str ""))))])

/-- `GremlinConverter._process_dict`: `IN`+`OUT` entries mean an edge,
else an `id` entry means a vertex (first-seen wins), else ignored. -/
def gremlinProcessDict (kvs : Obj) (acc : GraphAcc) : Except String GraphAcc :=
  if alContains kvs "IN" && alContains kvs "OUT" then
    match gremlinEdgeFromDict kvs with
    | .ok e => .ok { acc with edges := acc.edges ++ [e] }
    | .error err => .error err
  else if alContains kvs "id" then
    if alContains acc.nodes (gremlinVertexId kvs) then .ok acc
    else .ok { acc with nodes :=
        acc.nodes ++ [(gremlinVertexId kvs, gremlinVertexFromDict kvs)] }
  else .ok acc

mutual

/-- `GremlinConverter._process_item`.  `None` is dropped; the path /
vertex / edge attribute checks never fire on JSON-like values; mappings
go to `_process_dict`; lists recurse; anything else is ignored. -/
def gremlinProcessItem (v : Val) (acc : GraphAcc) : Except String GraphAcc :=
  match v with
  | .dict kvs => gremlinProcessDict kvs acc
  | .list xs => gremlinProcessList xs acc
  | _ => .ok acc

def gremlinProcessList (xs : List Val) (acc : GraphAcc) : Except String GraphAcc :=
  match xs with
  | [] => .ok acc
  | x :: rest =>
      match gremlinProcessItem x acc with
      | .ok acc2 => gremlinProcessList rest acc2
      | .error e => .error e

end

/-- `GremlinConverter.convert` up to the final projection. -/
def gremlinAcc (result : Val) : Except String GraphAcc :=
  gremlinProcessList (pyIterTop result) .empty

/-- `GremlinConverter.convert`. -/
def GremlinConverter.convert (result : Val) : Except String GraphData :=
  match gremlinAcc result with
  | .ok acc => .ok ⟨acc.nodes.map Prod.snd, acc.edges⟩
  | .error e => .error e

/-- A TinkerPop property object as accessed by `_vertex_to_dict`
(`prop.key` / `prop.value`).  Items of the properties iterable lacking
either attribute are skipped by the source's `hasattr` guards and
contribute nothing, so the embedding ranges over the contributing
ones.  These driver objects live outside the JSON-like `Val` universe
(no `Val` has `id`/`label`/`key`/`value` attributes), so `convert` on
`Val` inputs never reaches this accessor path; the path is embedded
directly by the functions below. -/
structure GremlinProperty where
  key : String
  value : Val

/-- A TinkerPop `Vertex` as accessed by `_vertex_to_dict`: the `id`
and `label` attributes and the `properties` attribute — `none` when
the attribute is absent or not iterable, `some` when it yields
property objects.  A callable properties accessor is modelled as
already invoked. -/
structure GremlinVertex where
  id : Val
  label : Val
  properties : Option (List GremlinProperty)

/-- `GremlinConverter._vertex_to_dict`: stringified `id` and `label`,
then each property object's raw `value` stored under its `key` —
`_flatten_value` is never called on this accessor path. -/
def vertex_to_dict (vertex : GremlinVertex) : Obj :=
  match vertex.properties with
  | some props =>
      props.foldl (fun r p => alSet r p.key p.value)
        [("id", .str (pyStr vertex.id)), ("label", .str (pyStr vertex.label))]
  | none => [("id", .str (pyStr vertex.id)), ("label", .str (pyStr vertex.label))]

/-- An edge endpoint as accessed by `_edge_to_dict`: either an object
carrying an `id` attribute (a vertex reference) or a plain value. -/
inductive GremlinEndpoint where
  | ref (id : Val)
  | plain (v : Val)

/-- `edge.outV.id if hasattr(edge.outV, "id") else edge.outV`. -/
def endpointVal : GremlinEndpoint → Val
  | .ref i => i
  | .plain v => v

/-- A TinkerPop `Edge` as accessed by `_edge_to_dict`: `outV`, `inV`
and `label` attributes, and the `properties` attribute — `some` when
it is a mapping (a callable accessor again modelled as already
invoked), `none` when absent or not a mapping. -/
structure GremlinEdge where
  outV : GremlinEndpoint
  inV : GremlinEndpoint
  label : Val
  properties : Option Obj

/-- `GremlinConverter._edge_to_dict`: stringified endpoints and label,
then `result.update(props)` copying the property mapping verbatim —
`_flatten_value` is never called on this accessor path. -/
def edge_to_dict (edge : GremlinEdge) : Obj :=
  match edge.properties with
  | some props =>
      alUpdate [("source", .str (pyStr (endpointVal edge.outV))),
                ("target", .str (pyStr (endpointVal edge.inV))),
                ("label", .str (pyStr edge.label))] props
  | none =>
      [("source", .str (pyStr (endpointVal edge.outV))),
       ("target", .str (pyStr (endpointVal edge.inV))),
       ("label", .str (pyStr edge.label))]

/-! ## `sparql.py` (`SPARQLConverter`) -/

/-- Constructor arguments of `SPARQLConverter`. -/
structure SparqlConfig where
  subject_var : String
  predicate_var : String
  object_var : String
  node_label_predicate : Option String

/-- The default `SPARQLConverter()` configuration. -/
def sparqlDefault : SparqlConfig :=
  ⟨"s", "p", "o", some "http://www.w3.org/2000/01/rdf-schema#label"⟩

/-- `yield from x` over a JSON-like value: lists yield elements,
mappings their keys, strings their characters; anything else raises
`TypeError`. -/
def pyIterYieldFrom (v : Val) : Except String (List Val) :=
  match v with
  | .list xs => .ok xs
  | .dict kvs => .ok (kvs.map (fun kv => .str kv.1))
  | .str s => .ok (s.toList.map (fun c => .str (String.singleton c)))
  | _ => .error "TypeError"

/-- `SPARQLConverter._iter_bindings`.  No JSON-like value has a
`bindings` attribute; a mapping with a `results` entry takes the
SPARQLWrapper branch (`result["results"].get("bindings", [])`, whose
`.get` raises when `results` holds a non-mapping); other iterables are
yielded from directly; non-iterables yield nothing. -/
def iter_bindings (result : Val) : Except String (List Val) :=
  match result with
  | .dict kvs =>
      if alContains kvs "results" then
        match alGetD kvs "results" .null with
        | .dict r2 => pyIterYieldFrom (alGetD r2 "bindings" (.list []))
        | _ => .error "AttributeError"
      else .ok (kvs.map (fun kv => .str kv.1))
  | .list xs => .ok xs
  | .str s => .ok (s.toList.map (fun c => .str (String.singleton c)))
  | _ => .ok []

/-- `SPARQLConverter._get_value`.  Mappings take the SPARQLWrapper
branch; strings and lists support `__getitem__` but raise `TypeError`
on a string index, which the source catches into `""`; everything else
falls through to `""`. -/
def get_value (binding : Val) (var : String) : String :=
  match binding with
  | .dict kvs =>
      match alGetD kvs var (.dict []) with
      | .dict v2 => pyStr (alGetD v2 "value" (.str ""))
      | v => if truthy v then pyStr v else ""
  | _ => ""

/-- Prefix test on character lists (kernel-reducible replacement for
byte-level string primitives). -/
def listIsPrefix : List Char → List Char → Bool
  | [], _ => true
  | _ :: _, [] => false
  | a :: as, b :: bs => a = b && listIsPrefix as bs

/-- `s.startswith(pre)`. -/
def strStartsWith (s pre : String) : Bool :=
  listIsPrefix pre.data s.data

/-- `c in s` for a single character `c`. -/
def strContainsChar (s : String) (c : Char) : Bool :=
  s.data.contains c

/-- `s.split(sep)` for a one-character separator (kernel-reducible). -/
def splitCharAux (sep : Char) : List Char → List Char → List String
  | [], cur => [String.mk cur.reverse]
  | c :: rest, cur =>
      if c = sep then String.mk cur.reverse :: splitCharAux sep rest []
      else splitCharAux sep rest (c :: cur)

def splitChar (s : String) (sep : Char) : List String :=
  splitCharAux sep s.data []

/-- `SPARQLConverter._is_uri`. -/
def is_uri (value : String) : Bool :=
  strStartsWith value "http://" || strStartsWith value "https://" || strStartsWith value "urn:"

/-- `SPARQLConverter._extract_local_name`: the part after the last `#`,
else after the last `/`, else the whole string. -/
def extract_local_name (uri : String) : String :=
  if strContainsChar uri (Char.ofNat 35) then (splitChar uri (Char.ofNat 35)).getLastD uri
  else if strContainsChar uri (Char.ofNat 47) then (splitChar uri (Char.ofNat 47)).getLastD uri
  else uri

/-- `if self.node_label_predicate:` — Python truthiness of the
configured label predicate. -/
def labelPredTruthy (cfg : SparqlConfig) : Bool :=
  match cfg.node_label_predicate with
  | some s => s != ""
  | none => false

/-- The label pass of `SPARQLConverter.convert`: record
`subject → object` for every binding whose predicate equals the label
predicate (later bindings overwrite earlier ones). -/
def sparqlLabels (cfg : SparqlConfig) (bindings : List Val) : List (String × String) :=
  if labelPredTruthy cfg then
    bindings.foldl
      (fun labels b =>
        if some (get_value b cfg.predicate_var) = cfg.node_label_predicate then
          let subj := get_value b cfg.subject_var
          let obj := get_value b cfg.object_var
          if subj ≠ "" && obj ≠ "" then alSet labels subj obj else labels
        else labels)
      []
  else []

/-- A freshly created SPARQL node: id and `uri` are the URI, the label
comes from the label table else the local name. -/
def sparqlNewNode (labels : List (String × String)) (u : String) : Obj :=
  [("id", .str u), ("label", .str (alGetD labels u (extract_local_name u))), ("uri", .str u)]

/-- In-place modification of the value stored under a key (the effect
of mutating `nodes[subj]`). -/
def alModify {α : Type} : List (String × α) → String → (α → α) → List (String × α)
  | [], _, _ => []
  | (k0, v0) :: rest, k, f =>
      if k0 = k then (k0, f v0) :: rest else (k0, v0) :: alModify rest k f

/-- `if subj not in nodes: nodes[subj] = {...}` — ensure a node exists
for a URI (used for both the subject and a URI object). -/
def sparqlEnsureNode (labels : List (String × String)) (u : String)
    (acc : GraphAcc) : GraphAcc :=
  if alContains acc.nodes u then acc
  else { acc with nodes := acc.nodes ++ [(u, sparqlNewNode labels u)] }

/-- The unguarded part of the triple pass body: ensure the subject
node; a URI object gets an object node and an appended edge; a
nonempty literal object becomes a property on the subject node. -/
def sparqlTriple (labels : List (String × String)) (subj pred obj : String)
    (acc : GraphAcc) : GraphAcc :=
  let acc1 := sparqlEnsureNode labels subj acc
  if obj ≠ "" && is_uri obj then
    let acc2 := sparqlEnsureNode labels obj acc1
    { acc2 with edges := acc2.edges ++
        [[("source", .str subj), ("target", .str obj),
          ("label", .str (extract_local_name pred)), ("predicate", .str pred)]] }
  else if obj ≠ "" then
    let upd : Obj → Obj := fun o => alSet o (extract_local_name pred) (.str obj)
    { acc1 with nodes := alModify acc1.nodes subj upd }
  else acc1

/-- The triple pass body of `SPARQLConverter.convert` for one binding:
skip on missing subject/predicate or a label triple, else process the
triple. -/
def sparqlStep (cfg : SparqlConfig) (labels : List (String × String))
    (acc : GraphAcc) (b : Val) : GraphAcc :=
  let subj := get_value b cfg.subject_var
  let pred := get_value b cfg.predicate_var
  let obj := get_value b cfg.object_var
  if subj = "" || pred = "" then acc
  else if some pred = cfg.node_label_predicate then acc
  else sparqlTriple labels subj pred obj acc

/-- `SPARQLConverter.convert` up to the final projection. -/
def sparqlAcc (cfg : SparqlConfig) (result : Val) : Except String GraphAcc :=
  match iter_bindings result with
  | .ok bindings => .ok (bindings.foldl (sparqlStep cfg (sparqlLabels cfg bindings)) .empty)
  | .error e => .error e

/-- `SPARQLConverter.convert`. -/
def SPARQLConverter.convert (cfg : SparqlConfig) (result : Val) : Except String GraphData :=
  match sparqlAcc cfg result with
  | .ok acc => .ok ⟨acc.nodes.map Prod.snd, acc.edges⟩
  | .error e => .error e

/-! ## `graphql.py` (`GraphQLConverter`) -/

/-- Constructor arguments of `GraphQLConverter`. -/
structure GraphqlConfig where
  id_field : String
  label_field : String
  nodes_path : Option String
  edges_path : Option String
  source_field : String
  target_field : String

/-- The default `GraphQLConverter()` configuration. -/
def graphqlDefault : GraphqlConfig := ⟨"id", "name", none, none, "source", "target"⟩

/-- Python truthiness of an optional string attribute
(`if self.nodes_path:`). -/
def optTruthy (o : Option String) : Bool :=
  match o with
  | some s => s != ""
  | none => false

/-- `x or []`. -/
def pyOrEmptyList (x : Val) : Val :=
  if truthy x then x else .list []

/-- `for item in x`: lists yield elements, mappings their keys, strings
their characters; numbers, booleans and `None` raise `TypeError`. -/
def pyIterFor (v : Val) : Except String (List Val) :=
  match v with
  | .list xs => .ok xs
  | .dict kvs => .ok (kvs.map (fun kv => .str kv.1))
  | .str s => .ok (s.toList.map (fun c => .str (String.singleton c)))
  | _ => .error "TypeError"

/-- `key.isdigit()` (ASCII digits). -/
def pyIsDigit (s : String) : Bool :=
  !s.data.isEmpty && s.data.all Char.isDigit

/-- `int(key)` for an all-digit string. -/
def digitsToNat : List Char → Nat → Nat
  | [], acc => acc
  | c :: rest, acc => digitsToNat rest (acc * 10 + (c.toNat - 48))

def pyToNat (s : String) : Nat :=
  digitsToNat s.data 0

/-- One segment of `GraphQLConverter._get_path`: a mapping key, a
numeric list index, or failure (`None`). -/
def getPathStep (data : Val) (key : String) : Val :=
  match data with
  | .dict kvs => alGetD kvs key .null
  | .list xs =>
      if pyIsDigit key then
        if pyToNat key < xs.length then xs.getD (pyToNat key) .null else .null
      else .null
  | _ => .null

/-- `GraphQLConverter._get_path`.  The source's early `return None` on
a failing segment is modelled by carrying `None` forward: every later
segment maps `None` to `None`, which is extensionally the same
result. -/
def get_path (data : Val) (path : String) : Val :=
  (splitChar path (Char.ofNat 46)).foldl getPathStep data

/-- The node id computed by `GraphQLConverter._item_to_node`:
`str(item.get(self.id_field, id(item)))`. -/
def graphqlNodeId (cfg : GraphqlConfig) (kvs : Obj) : String :=
  pyStr (alGetD kvs cfg.id_field (.int (memId (.dict kvs))))

/-- `node["id"]`: the final `id` entry of a dict built by
`_item_to_node`.  That entry is always present there (it is written
before the property loop, which can only overwrite it), so the `.null`
default is unreachable on `_item_to_node` outputs. -/
def nodeKey (node : Obj) : Val :=
  alGetD node "id" .null

/-- The Python dict-key equality class of a value, encoded injectively
as a string.  `nodes[node["id"]] = node` keys the node map by Python
`==`, under which `True == 1` and `False == 0` while strings never
equal numbers, so booleans normalize to their integer value and the
class prefixes (`i`/`s`/`n`) keep numbers, strings and `None` apart.
Only scalar keys reach the node map (`_item_to_node`'s property loop
copies only non-mapping, non-list values over the initial string id),
so the mapping/list fallback is unreachable there. -/
def pyKeyNorm : Val → String
  | .bool b => "i" ++ pyStrAtom (.int (if b then 1 else 0))
  | .int n => "i" ++ pyStrAtom (.int n)
  | .str s => "s" ++ s
  | .null => "n"
  | v => "o" ++ pyRepr v

/-- True for mappings and lists (`isinstance(value, (dict, list))`). -/
def isDictOrList (v : Val) : Bool :=
  match v with
  | .dict _ => true
  | .list _ => true
  | _ => false

/-- One entry of `_item_to_node`'s property loop: copy scalar entries
outside the id field verbatim. -/
def graphqlPropStep (cfg : GraphqlConfig) (r : Obj) (kv : String × Val) : Obj :=
  if kv.1 ≠ cfg.id_field && !isDictOrList kv.2 then alSet r kv.1 kv.2 else r

/-- `GraphQLConverter._item_to_node`: stringified id, label from the
label field (falling back to the id), then every scalar entry outside
the id field copied verbatim. -/
def item_to_node (cfg : GraphqlConfig) (kvs : Obj) : Obj :=
  let node_id := graphqlNodeId cfg kvs
  let label := alGetD kvs cfg.label_field (.str "")
  kvs.foldl (graphqlPropStep cfg)
    [("id", .str node_id),
     ("label", .str (if truthy label then pyStr label else node_id))]

/-- `GraphQLConverter._item_to_edge`: endpoints from the configured
fields (else `from`/`to`), unwrapping nested node references, plus a
label from `label`/`type`/`__typename`. -/
def item_to_edge (cfg : GraphqlConfig) (kvs : Obj) : Obj :=
  let source := alGetD kvs cfg.source_field (alGetD kvs "from" (.str ""))
  let target := alGetD kvs cfg.target_field (alGetD kvs "to" (.str ""))
  let source := match source with | .dict s => alGetD s cfg.id_field (.str "") | v => v
  let target := match target with | .dict t => alGetD t cfg.id_field (.str "") | v => v
  [("source", .str (pyStr source)), ("target", .str (pyStr target)),
   ("label", .str (pyStr (alGetD kvs "label"
      (alGetD kvs "type" (alGetD kvs "__typename" (.str ""))))))]

/-- The `contains` edge added from an explicit parent context: only
when a parent id exists, is truthy, and differs (by Python `!=`, under
which a `str` equals only an equal `str`) from the raw `node["id"]`
value.  Every call site passes `parent_id = None`, so this branch
never fires during `convert`. -/
def autoParentEdge (parent : Option String) (nid : Val) (acc : GraphAcc) : GraphAcc :=
  match parent with
  | some p =>
      if p ≠ "" && nid ≠ .str p then
        { acc with edges := acc.edges ++
            [[("source", .str p), ("target", nid), ("label", .str "contains")]] }
      else acc
  | none => acc

/-- One reference inside `_auto_extract`'s node branch: a mapping
value containing the id field is stored as a node under its raw
`ref_node["id"]` key (overwriting any entry whose key is Python-equal)
plus an edge carrying the raw `node["id"]`/`ref_node["id"]` values as
endpoints, labeled with the containing entry's key. -/
def autoRefStep (cfg : GraphqlConfig) (nid : Val) (key : String) (acc : GraphAcc)
    (ref : Obj) : GraphAcc :=
  if alContains ref cfg.id_field then
    { nodes := alSet acc.nodes (pyKeyNorm (nodeKey (item_to_node cfg ref)))
        (item_to_node cfg ref),
      edges := acc.edges ++
        [[("source", nid), ("target", nodeKey (item_to_node cfg ref)),
          ("label", .str key)]] }
  else acc

/-- One element of a list-valued entry during the reference scan. -/
def autoRefListStep (cfg : GraphqlConfig) (nid : Val) (key : String) (acc : GraphAcc)
    (it : Val) : GraphAcc :=
  match it with
  | .dict ref => autoRefStep cfg nid key acc ref
  | _ => acc

/-- One entry of the node during the reference scan: mapping values go
through `autoRefStep`, list values elementwise. -/
def autoRefScanStep (cfg : GraphqlConfig) (nid : Val) (acc : GraphAcc)
    (kv : String × Val) : GraphAcc :=
  match kv.2 with
  | .dict ref => autoRefStep cfg nid kv.1 acc ref
  | .list items => items.foldl (autoRefListStep cfg nid kv.1) acc
  | _ => acc

/-- The reference scan inside `_auto_extract`'s node branch.  No
deeper recursion happens here. -/
def autoRefScan (cfg : GraphqlConfig) (nid : Val) (kvs : Obj) (acc : GraphAcc) : GraphAcc :=
  kvs.foldl (autoRefScanStep cfg nid) acc

mutual

/-- `GraphQLConverter._auto_extract`.  A mapping containing the id
field is stored as a node under the raw `node["id"]` value — the built
node's final `id` entry, which a scalar `id` entry of the mapping
overwrites when the configured id field is not `id` — keyed by its
Python equality class; it gains a `contains` edge from a distinct
nonempty parent id, and has its direct entries scanned for references.
A mapping without the id field and a list recurse into their
values/elements. -/
def autoExtract (cfg : GraphqlConfig) (data : Val) (parent : Option String)
    (acc : GraphAcc) : GraphAcc :=
  match data with
  | .dict kvs =>
      if alContains kvs cfg.id_field then
        autoRefScan cfg (nodeKey (item_to_node cfg kvs)) kvs
          (autoParentEdge parent (nodeKey (item_to_node cfg kvs))
            { acc with
                nodes := alSet acc.nodes (pyKeyNorm (nodeKey (item_to_node cfg kvs)))
                  (item_to_node cfg kvs) })
      else autoExtractKvs cfg kvs parent acc
  | .list xs => autoExtractList cfg xs parent acc
  | _ => acc

def autoExtractKvs (cfg : GraphqlConfig) (kvs : List (String × Val))
    (parent : Option String) (acc : GraphAcc) : GraphAcc :=
  match kvs with
  | [] => acc
  | kv :: rest => autoExtractKvs cfg rest parent (autoExtract cfg kv.2 parent acc)

def autoExtractList (cfg : GraphqlConfig) (xs : List Val)
    (parent : Option String) (acc : GraphAcc) : GraphAcc :=
  match xs with
  | [] => acc
  | x :: rest => autoExtractList cfg rest parent (autoExtract cfg x parent acc)

end

/-- `result.get("data", result) if isinstance(result, dict) else result`. -/
def graphqlUnwrap (result : Val) : Val :=
  match result with
  | .dict kvs => alGetD kvs "data" (.dict kvs)
  | v => v

/-- One item of the explicit `nodes_path` loop: mappings become nodes
stored under the raw `node["id"]` value (`nodes[node["id"]] = node`),
keyed by its Python equality class and overwriting any entry with a
Python-equal key; others are skipped. -/
def graphqlNodeStep (cfg : GraphqlConfig) (acc : GraphAcc) (it : Val) : GraphAcc :=
  match it with
  | .dict kvs =>
      { acc with
          nodes := alSet acc.nodes (pyKeyNorm (nodeKey (item_to_node cfg kvs)))
            (item_to_node cfg kvs) }
  | _ => acc

/-- One item of the explicit `edges_path` loop: mappings become edges,
appended only when both endpoints are truthy. -/
def graphqlEdgeStep (cfg : GraphqlConfig) (acc : GraphAcc) (it : Val) : GraphAcc :=
  match it with
  | .dict kvs =>
      let edge := item_to_edge cfg kvs
      if truthy (alGetD edge "source" .null) && truthy (alGetD edge "target" .null)
      then { acc with edges := acc.edges ++ [edge] }
      else acc
  | _ => acc

/-- The explicit `nodes_path` block of `GraphQLConverter.convert`. -/
def graphqlNodesBlock (cfg : GraphqlConfig) (data : Val) (acc : GraphAcc) :
    Except String GraphAcc :=
  if optTruthy cfg.nodes_path then
    match pyIterFor (pyOrEmptyList (get_path data (cfg.nodes_path.getD ""))) with
    | .ok items => .ok (items.foldl (graphqlNodeStep cfg) acc)
    | .error e => .error e
  else .ok acc

/-- The explicit `edges_path` block of `GraphQLConverter.convert`. -/
def graphqlEdgesBlock (cfg : GraphqlConfig) (data : Val) (acc : GraphAcc) :
    Except String GraphAcc :=
  if optTruthy cfg.edges_path then
    match pyIterFor (pyOrEmptyList (get_path data (cfg.edges_path.getD ""))) with
    | .ok items => .ok (items.foldl (graphqlEdgeStep cfg) acc)
    | .error e => .error e
  else .ok acc

/-- `GraphQLConverter.convert` up to the final projection. -/
def graphqlAcc (cfg : GraphqlConfig) (result : Val) : Except String GraphAcc :=
  match graphqlNodesBlock cfg (graphqlUnwrap result) .empty with
  | .ok acc =>
      match graphqlEdgesBlock cfg (graphqlUnwrap result) acc with
      | .ok acc =>
          .ok (if !optTruthy cfg.nodes_path && !optTruthy cfg.edges_path
               then autoExtract cfg (graphqlUnwrap result) none acc else acc)
      | .error e => .error e
  | .error e => .error e

/-- `GraphQLConverter.convert`. -/
def GraphQLConverter.convert (cfg : GraphqlConfig) (result : Val) : Except String GraphData :=
  match graphqlAcc cfg result with
  | .ok acc => .ok ⟨acc.nodes.map Prod.snd, acc.edges⟩
  | .error e => .error e

/-! ## Association-list lemmas -/

theorem alGet_alSet_self {α : Type} (l : List (String × α)) (k : String) (v : α) :
    alGet (alSet l k v) k = some v := by
  induction l with
  | nil => simp [alSet, alGet]
  | cons kv rest ih =>
      obtain ⟨k0, v0⟩ := kv
      by_cases h : k0 = k <;> simp [alSet, alGet, h, ih]

theorem alGet_alSet_ne {α : Type} (l : List (String × α)) (k k2 : String) (v : α)
    (h : k ≠ k2) : alGet (alSet l k v) k2 = alGet l k2 := by
  induction l with
  | nil => simp [alSet, alGet, h]
  | cons kv rest ih =>
      obtain ⟨k0, v0⟩ := kv
      by_cases h0 : k0 = k
      · subst h0; simp [alSet, alGet, h]
      · simp [alSet, alGet, h0, ih]

theorem alContains_iff_mem {α : Type} (l : List (String × α)) (k : String) :
    alContains l k = true ↔ k ∈ alKeys l := by
  induction l with
  | nil => simp [alContains, alGet, alKeys]
  | cons kv rest ih =>
      obtain ⟨k0, v0⟩ := kv
      by_cases h : k0 = k
      · subst h; simp [alContains, alGet, alKeys]
      · have hstep : alContains ((k0, v0) :: rest) k = alContains rest k := by
          simp [alContains, alGet, if_neg h]
        rw [hstep, ih]
        simp only [alKeys, List.map_cons, List.mem_cons]
        constructor
        · exact fun hm => Or.inr hm
        · rintro (h1 | h2)
          · exact absurd h1.symm h
          · exact h2

theorem alKeys_alSet {α : Type} (l : List (String × α)) (k : String) (v : α) :
    alKeys (alSet l k v) = if alContains l k then alKeys l else alKeys l ++ [k] := by
  induction l with
  | nil => simp [alSet, alKeys, alContains, alGet]
  | cons kv rest ih =>
      obtain ⟨k0, v0⟩ := kv
      by_cases h : k0 = k
      · subst h; simp [alSet, alKeys, alContains, alGet]
      · simp only [alSet, if_neg h, alKeys, List.map_cons, alContains, alGet] at ih ⊢
        rw [ih]
        by_cases hc : (alGet rest k).isSome <;> simp [hc]

theorem alKeys_nodup_alSet {α : Type} (l : List (String × α)) (k : String) (v : α)
    (h : (alKeys l).Nodup) : (alKeys (alSet l k v)).Nodup := by
  rw [alKeys_alSet]
  by_cases hc : alContains l k
  · simp [hc, h]
  · have : k ∉ alKeys l := by
      intro hm
      exact hc ((alContains_iff_mem l k).2 hm)
    simp [hc, List.nodup_append, h, this]

theorem alGet_append {α : Type} (l1 l2 : List (String × α)) (k : String) :
    alGet (l1 ++ l2) k = (alGet l1 k).or (alGet l2 k) := by
  induction l1 with
  | nil => simp [alGet]
  | cons kv rest ih =>
      obtain ⟨k0, v0⟩ := kv
      by_cases h : k0 = k <;> simp [alGet, h, ih]

theorem alGet_alModify_self {α : Type} (l : List (String × α)) (k : String) (f : α → α) :
    alGet (alModify l k f) k = (alGet l k).map f := by
  induction l with
  | nil => simp [alModify, alGet]
  | cons kv rest ih =>
      obtain ⟨k0, v0⟩ := kv
      by_cases h : k0 = k <;> simp [alModify, alGet, h, ih]

theorem alGet_alModify_ne {α : Type} (l : List (String × α)) (k k2 : String) (f : α → α)
    (h : k ≠ k2) : alGet (alModify l k f) k2 = alGet l k2 := by
  induction l with
  | nil => simp [alModify, alGet]
  | cons kv rest ih =>
      obtain ⟨k0, v0⟩ := kv
      by_cases h0 : k0 = k
      · subst h0; simp [alModify, alGet, h]
      · simp [alModify, alGet, h0, ih]

theorem alKeys_alModify {α : Type} (l : List (String × α)) (k : String) (f : α → α) :
    alKeys (alModify l k f) = alKeys l := by
  induction l with
  | nil => simp [alModify]
  | cons kv rest ih =>
      obtain ⟨k0, v0⟩ := kv
      by_cases h : k0 = k
      · simp [alModify, alKeys, h]
      · simp [alModify, alKeys, h] at ih ⊢
        simp [ih]

theorem alContains_alSet_mono {α : Type} (l : List (String × α)) (k k2 : String) (v : α)
    (h : alContains l k2 = true) : alContains (alSet l k v) k2 = true := by
  by_cases hk : k = k2
  · subst hk; simp [alContains, alGet_alSet_self]
  · rwa [alContains, alGet_alSet_ne l k k2 v hk]

theorem alContains_alSet_self {α : Type} (l : List (String × α)) (k : String) (v : α) :
    alContains (alSet l k v) k = true := by
  simp [alContains, alGet_alSet_self]

/-! ## Path-resolution lemmas -/

/-- The Cypher-style scenario input of spec §8:
`[{"n": {"id": 1, "labels": ["Person"], "properties": {"name": "Alice"}}}]`. -/
def c2input : Val :=
  .list [.dict [("n", .dict [("id", .int 1), ("labels", .list [.str "Person"]),
    ("properties", .dict [("name", .str "Alice")])])]]

/-- C2 (counterexample): on the spec scenario input the single emitted
node keeps the raw integer id `1` (overwritten back by
`result.update(dict(node))`), has no `label` entry and no top-level
`name` entry (the `properties` mapping stays nested), so it is not the
claimed `{id: "1", label: "Person", labels: ["Person"], name: "Alice"}`. -/
theorem c2_counterexample :
    (CypherConverter.convert c2input).nodes.length = 1 ∧
    alGet ((CypherConverter.convert c2input).nodes.headI) "id" = some (.int 1) ∧
    alGet ((CypherConverter.convert c2input).nodes.headI) "label" = none ∧
    alGet ((CypherConverter.convert c2input).nodes.headI) "name" = none ∧
    (CypherConverter.convert c2input).edges = [] := by decide

/-- C2 (amended): `CypherConverter.convert` (and the GQL alias) on the
scenario input returns exactly one node, stored under the stringified
key `"1"`, whose entries are the raw mapping's entries — the integer id
`1`, the `labels` list and the nested `properties` mapping, with no
`label` or flattened `name` entry — and zero edges. -/
theorem c2_theorem :
    CypherConverter.convert c2input =
      ⟨[[("id", .int 1), ("labels", .list [.str "Person"]),
         ("properties", .dict [("name", .str "Alice")])]], []⟩ ∧
    alKeys (cypherAcc c2input).nodes = ["1"] ∧
    GQLConverter.convert c2input = CypherConverter.convert c2input := by decide

/-! ## Claim C4 -/

/-- C4 (code evaluated at the failing input): a value-map style mapping
whose `OUT`/`IN` entries hold plain strings makes
`GremlinConverter.convert` raise `AttributeError`
(`item.get("OUT", {}).get(...)` on a `str`), instead of returning a
`GraphData` mapping as the skip-malformed philosophy requires. -/
theorem c4_theorem :
    GremlinConverter.convert (.list [.dict [("IN", .str "a"), ("OUT", .str "b")]]) =
      .error "AttributeError" := by decide

/-! ## Claim C9 -/

/-- C10: a plain mapping carrying an `id` key together with `source`
and `target` keys is classified as a node by
`CypherConverter._process_value` (the node check precedes the
relationship check): the edge list is untouched and the mapping is
inserted as a node under first-seen-wins dedup. -/
theorem c10_theorem (kvs : Obj) (acc : GraphAcc)
    (hid : alContains kvs "id" = true) (_hs : alContains kvs "source" = true)
    (_ht : alContains kvs "target" = true) :
    (processValue (.dict kvs) acc).edges = acc.edges ∧
    (processValue (.dict kvs) acc).nodes =
      (if alContains acc.nodes (get_node_id (.dict kvs)) then acc.nodes
       else acc.nodes ++ [(get_node_id (.dict kvs), node_to_dict (.dict kvs))]) := by
  have hn : is_node (.dict kvs) = true := by simp [is_node, hid]
  by_cases hc : alContains acc.nodes (get_node_id (.dict kvs)) <;>
    simp [processValue, hn, hc]

/-- C10 witness at a concrete node-and-relationship-shaped mapping. -/
theorem c10_witness :
    (processValue (.dict [("id", .str "1"), ("source", .str "a"), ("target", .str "b")])
      .empty).edges = [] ∧
    alKeys (processValue (.dict [("id", .str "1"), ("source", .str "a"), ("target", .str "b")])
      .empty).nodes = ["1"] := by
  have h := c10_theorem [("id", .str "1"), ("source", .str "a"), ("target", .str "b")]
    .empty (by decide) (by decide) (by decide)
  refine ⟨h.1.trans rfl, ?_⟩
  rw [h.2]
  decide

/-! ## Claim C7 -/

/-- A `GraphQLConverter(nodes_path="a.children")` configuration. -/
def c7cfg : GraphqlConfig := ⟨"id", "name", some "a.children", none, "source", "target"⟩

/-- `{"a": {"id": "1", "children": [{"id": "2"}]}}`. -/
def c7input : Val :=
  .dict [("a", .dict [("id", .str "1"), ("children", .list [.dict [("id", .str "2")]])])]

/-- C7 (counterexample): with `nodes_path` configured and `edges_path`
unconfigured, `convert` extracts no edges at all, although the
unconfigured (auto-detecting) converter extracts a `children` edge from
the same input. -/
theorem c7_counterexample :
    GraphQLConverter.convert c7cfg c7input =
      .ok ⟨[[("id", .str "2"), ("label", .str "2")]], []⟩ ∧
    GraphQLConverter.convert graphqlDefault c7input =
      .ok ⟨[[("id", .str "1"), ("label", .str "1")], [("id", .str "2"), ("label", .str "2")]],
           [[("source", .str "1"), ("target", .str "2"), ("label", .str "children")]]⟩ := by
  decide

theorem graphqlNodesFold_edges (cfg : GraphqlConfig) (items : List Val) (acc : GraphAcc) :
    (items.foldl (graphqlNodeStep cfg) acc).edges = acc.edges := by
  induction items generalizing acc with
  | nil => rfl
  | cons x rest ih =>
      rw [List.foldl_cons, ih]
      cases x <;> rfl

/-- C7 (amended): structural auto-detection runs only when neither
`nodes_path` nor `edges_path` is configured; with `nodes_path`
configured (truthy) and `edges_path` unconfigured, the returned edge
list is always empty — no auto-detection of edges happens. -/
theorem c7_theorem (cfg : GraphqlConfig) (data : Val) (g : GraphData)
    (h1 : optTruthy cfg.nodes_path = true) (h2 : optTruthy cfg.edges_path = false)
    (h : GraphQLConverter.convert cfg data = .ok g) : g.edges = [] := by
  unfold GraphQLConverter.convert at h
  cases hacc : graphqlAcc cfg data with
  | error e => rw [hacc] at h; cases h
  | ok acc =>
      rw [hacc] at h
      have hg : g = ⟨acc.nodes.map Prod.snd, acc.edges⟩ := by
        cases h; rfl
      unfold graphqlAcc at hacc
      cases hnb : graphqlNodesBlock cfg (graphqlUnwrap data) .empty with
      | error e => rw [hnb] at hacc; cases hacc
      | ok acc1 =>
          rw [hnb] at hacc
          unfold graphqlEdgesBlock at hacc
          rw [h2] at hacc
          simp only [Bool.false_eq_true, if_false, h1, Bool.not_true, Bool.false_and] at hacc
          have hacc1 : acc1 = acc := by cases hacc; rfl
          have hedges : acc1.edges = [] := by
            unfold graphqlNodesBlock at hnb
            rw [h1] at hnb
            simp only [if_true] at hnb
            cases hit : pyIterFor (pyOrEmptyList (get_path (graphqlUnwrap data)
                (cfg.nodes_path.getD ""))) with
            | error e => rw [hit] at hnb; cases hnb
            | ok items =>
                rw [hit] at hnb
                have : items.foldl (graphqlNodeStep cfg) .empty = acc1 := by
                  cases hnb; rfl
                rw [← this, graphqlNodesFold_edges]
                rfl
          rw [hg]
          rw [← hacc1, hedges]

/-- C7 witness: the amended theorem applied at the concrete
configuration and input. -/
theorem c7_witness :
    GraphQLConverter.convert c7cfg c7input =
      .ok ⟨[[("id", .str "2"), ("label", .str "2")]], []⟩ ∧
    (GraphData.mk [[("id", .str "2"), ("label", .str "2")]] []).edges = [] :=
  ⟨by decide, c7_theorem c7cfg c7input ⟨[[("id", .str "2"), ("label", .str "2")]], []⟩
    (by decide) (by decide) (by decide)⟩


/-! ## Conditional property-copy fold lemmas -/

section stepFold

variable {step : Obj → (String × Val) → Obj} {cond : String × Val → Bool}
variable {g : String × Val → Val}

theorem alGet_foldl_step_keep
    (hstep : ∀ r kv, step r kv = if cond kv then alSet r kv.1 (g kv) else r)
    (kvs : Obj) (init : Obj) (k : String)
    (hk : ∀ kv, kv ∈ kvs → kv.1 = k → cond kv = false) :
    alGet (kvs.foldl step init) k = alGet init k := by
  induction kvs generalizing init with
  | nil => rfl
  | cons kv0 rest ih =>
      rw [List.foldl_cons, ih _ (fun kv hm he => hk kv (List.mem_cons_of_mem _ hm) he), hstep]
      by_cases hc : cond kv0 = true
      · have hne : kv0.1 ≠ k := by
          intro he
          rw [hk kv0 (List.mem_cons_self _ _) he] at hc
          cases hc
        simp only [hc, if_true]
        exact alGet_alSet_ne _ _ _ _ hne
      · simp [hc]

theorem alGet_foldl_step_mem
    (hstep : ∀ r kv, step r kv = if cond kv then alSet r kv.1 (g kv) else r)
    (kvs : Obj) (init : Obj) (k : String) (v : Val)
    (hnd : (alKeys kvs).Nodup)
    (hget : alGet kvs k = some v) (hc : cond (k, v) = true) :
    alGet (kvs.foldl step init) k = some (g (k, v)) := by
  induction kvs generalizing init with
  | nil => cases hget
  | cons kv0 rest ih =>
      obtain ⟨k0, v0⟩ := kv0
      rw [List.foldl_cons]
      simp only [alKeys, List.map_cons, List.nodup_cons] at hnd
      by_cases h0 : k0 = k
      · subst h0
        have hv : v0 = v := by
          simpa [alGet] using hget
        subst hv
        have hnotin : ∀ kv, kv ∈ rest → kv.1 = k0 → cond kv = false := by
          intro kv hm he
          exact absurd (he ▸ List.mem_map_of_mem Prod.fst hm) hnd.1
        rw [alGet_foldl_step_keep hstep rest _ k0 hnotin, hstep]
        simp only [hc, if_true]
        exact alGet_alSet_self _ _ _
      · have hget2 : alGet rest k = some v := by
          simpa [alGet, h0] using hget
        exact ih _ hnd.2 hget2

theorem alContains_foldl_step_mono
    (hstep : ∀ r kv, step r kv = if cond kv then alSet r kv.1 (g kv) else r)
    (kvs : Obj) (init : Obj) (k : String)
    (h : alContains init k = true) :
    alContains (kvs.foldl step init) k = true := by
  induction kvs generalizing init with
  | nil => exact h
  | cons kv0 rest ih =>
      rw [List.foldl_cons]
      apply ih
      rw [hstep]
      by_cases hc : cond kv0 = true
      · simp only [hc, if_true]
        exact alContains_alSet_mono _ _ _ _ h
      · simpa [hc] using h

end stepFold

theorem gremlinVertexStep_eq (r : Obj) (kv : String × Val) :
    gremlinVertexStep r kv =
      if (kv.1 != "id") then alSet r kv.1 (flatten_value kv.2) else r := by
  by_cases h : kv.1 = "id" <;> simp [gremlinVertexStep, h]

theorem gremlinEdgePropStep_eq (r : Obj) (kv : String × Val) :
    gremlinEdgePropStep r kv =
      if (kv.1 != "id" && kv.1 != "label" && kv.1 != "IN" && kv.1 != "OUT")
      then alSet r kv.1 (flatten_value kv.2) else r := by
  by_cases h1 : kv.1 = "id"
  · simp [gremlinEdgePropStep, h1]
  · by_cases h2 : kv.1 = "label"
    · simp [gremlinEdgePropStep, h2]
    · by_cases h3 : kv.1 = "IN"
      · simp [gremlinEdgePropStep, h3]
      · by_cases h4 : kv.1 = "OUT" <;> simp [gremlinEdgePropStep, h1, h2, h3, h4]

theorem graphqlPropStep_eq (cfg : GraphqlConfig) (r : Obj) (kv : String × Val) :
    graphqlPropStep cfg r kv =
      if (kv.1 != cfg.id_field && !isDictOrList kv.2) then alSet r kv.1 kv.2 else r := by
  by_cases h : kv.1 = cfg.id_field <;> simp [graphqlPropStep, h]

/-! ## Claim C6 -/

/-- C6 (counterexample): on the accessor path the claim fails —
`_vertex_to_dict` stores `prop.value` raw and `_edge_to_dict` updates
with the property mapping verbatim, so a singleton-list property value
`["Alice"]` (resp. `[5]`) stays a list instead of flattening to its
element. -/
theorem c6_counterexample :
    alGet (vertex_to_dict ⟨.int 1, .str "person",
        some [⟨"name", .list [.str "Alice"]⟩]⟩) "name" = some (.list [.str "Alice"]) ∧
    alGet (edge_to_dict ⟨.ref (.int 1), .ref (.int 2), .str "knows",
        some [("weight", .list [.int 5])]⟩) "weight" = some (.list [.int 5]) := by decide

/-- C6 (amended): the singleton-list flattening applies exactly to the
dict-shaped (value-map/element-map) results handled by
`_process_dict`: `_flatten_value` maps `[x]` to `x` and any list of
length other than one to itself, and both the vertex and the edge
branch of `_process_dict` store `flatten_value v` under every copied
property key.  On the accessor path for driver Vertex/Edge objects no
flattening happens: `_vertex_to_dict` stores each property object's
raw value and `_edge_to_dict` copies the property mapping verbatim,
singleton lists included. -/
theorem c6_theorem :
    (∀ (x : Val), flatten_value (.list [x]) = x) ∧
    (∀ (xs : List Val), xs.length ≠ 1 → flatten_value (.list xs) = .list xs) ∧
    (∀ (kvs : Obj) (k : String) (v : Val), (alKeys kvs).Nodup → k ≠ "id" →
      alGet kvs k = some v →
      alGet (gremlinVertexFromDict kvs) k = some (flatten_value v)) ∧
    (∀ (kvs : Obj) (e : Obj) (k : String) (v : Val), (alKeys kvs).Nodup →
      gremlinEdgeFromDict kvs = .ok e →
      k ≠ "id" → k ≠ "label" → k ≠ "IN" → k ≠ "OUT" →
      alGet kvs k = some v →
      alGet e k = some (flatten_value v)) ∧
    (∀ (idv lb : Val) (k : String) (v : Val),
      alGet (vertex_to_dict ⟨idv, lb, some [⟨k, v⟩]⟩) k = some v) ∧
    (∀ (o i : GremlinEndpoint) (lb : Val) (k : String) (v : Val),
      alGet (edge_to_dict ⟨o, i, lb, some [(k, v)]⟩) k = some v) := by
  refine ⟨fun x => rfl, ?_, ?_, ?_,
    fun idv lb k v => by simp [vertex_to_dict, alGet_alSet_self],
    fun o i lb k v => by simp [edge_to_dict, alUpdate, alGet_alSet_self]⟩
  · intro xs hlen
    match xs with
    | [] => rfl
    | [x] => exact absurd rfl hlen
    | x :: y :: rest => rfl
  · intro kvs k v hnd hk hget
    unfold gremlinVertexFromDict
    exact alGet_foldl_step_mem gremlinVertexStep_eq kvs _ k v hnd hget (by simp [hk])
  · intro kvs e k v hnd hed hk1 hk2 hk3 hk4 hget
    unfold gremlinEdgeFromDict at hed
    cases hsrc : gremlinEdgeEndpoint kvs "OUT" with
    | error err => rw [hsrc] at hed; cases hed
    | ok src =>
        rw [hsrc] at hed
        cases htgt : gremlinEdgeEndpoint kvs "IN" with
        | error err => rw [htgt] at hed; cases hed
        | ok tgt =>
            rw [htgt] at hed
            have he : kvs.foldl gremlinEdgePropStep
                [("source", .str src), ("target", .str tgt),
                 ("label", .str (pyStr (alGetD kvs "label" (.str ""))))] = e := by
              cases hed; rfl
            rw [← he]
            exact alGet_foldl_step_mem gremlinEdgePropStep_eq kvs _ k v hnd hget
              (by simp [hk1, hk2, hk3, hk4])

/-- C6 witness: a singleton-list property flattens on a concrete
vertex and a concrete element-map edge; a two-element list stays. -/
theorem c6_witness :
    alGet (gremlinVertexFromDict [("id", .str "1"), ("name", .list [.str "Alice"])])
      "name" = some (.str "Alice") ∧
    flatten_value (.list [.str "Alice", .str "Bob"]) = .list [.str "Alice", .str "Bob"] ∧
    (gremlinEdgeFromDict [("IN", .dict [("id", .str "b")]), ("OUT", .dict [("id", .str "a")]),
        ("weight", .list [.int 5])] =
      .ok [("source", .str "a"), ("target", .str "b"), ("label", .str ""), ("weight", .int 5)]) ∧
    alGet ([("source", .str "a"), ("target", .str "b"), ("label", .str ""),
      ("weight", .int 5)] : Obj) "weight" = some (.int 5) := by
  refine ⟨?_, c6_theorem.2.1 [Val.str "Alice", Val.str "Bob"] (by decide), by decide, ?_⟩
  · exact c6_theorem.2.2.1 [("id", Val.str "1"), ("name", Val.list [Val.str "Alice"])] "name"
      (Val.list [Val.str "Alice"]) (by decide) (by decide) (by decide)
  · have h := c6_theorem.2.2.2.1
      [("IN", Val.dict [("id", Val.str "b")]), ("OUT", Val.dict [("id", Val.str "a")]),
       ("weight", Val.list [Val.int 5])]
      [("source", Val.str "a"), ("target", Val.str "b"), ("label", Val.str ""),
       ("weight", Val.int 5)]
      "weight" (Val.list [Val.int 5]) (by decide) (by decide) (by decide) (by decide) (by decide)
      (by decide) (by decide)
    exact h


/-! ## Claim C3 -/

theorem alContains_append_single {α : Type} (l : List (String × α)) (k k2 : String) (v : α) :
    alContains (l ++ [(k, v)]) k2 = (alContains l k2 || decide (k = k2)) := by
  simp only [alContains, alGet_append]
  cases halGet : alGet l k2 with
  | none => by_cases h : k = k2 <;> simp [alGet, h]
  | some x => simp

theorem alContains_alModify {α : Type} (l : List (String × α)) (k : String) (f : α → α)
    (k2 : String) : alContains (alModify l k f) k2 = alContains l k2 := by
  by_cases h : k = k2
  · subst h; simp [alContains, alGet_alModify_self]
  · simp [alContains, alGet_alModify_ne l k k2 f h]

theorem sparqlEnsureNode_edges (labels : List (String × String)) (u : String)
    (acc : GraphAcc) : (sparqlEnsureNode labels u acc).edges = acc.edges := by
  by_cases hc : alContains acc.nodes u = true <;> simp [sparqlEnsureNode, hc]

theorem sparqlEnsureNode_contains_self (labels : List (String × String)) (u : String)
    (acc : GraphAcc) : alContains (sparqlEnsureNode labels u acc).nodes u = true := by
  by_cases hc : alContains acc.nodes u = true <;>
    simp [sparqlEnsureNode, hc, alContains_append_single]

theorem sparqlEnsureNode_mem (labels : List (String × String)) (u : String)
    (acc : GraphAcc) (k : String)
    (h : alContains (sparqlEnsureNode labels u acc).nodes k = true) :
    alContains acc.nodes k = true ∨ k = u := by
  by_cases hc : alContains acc.nodes u = true
  · rw [sparqlEnsureNode, if_pos hc] at h
    exact Or.inl h
  · rw [sparqlEnsureNode, if_neg hc] at h
    simp only [alContains_append_single, Bool.or_eq_true, decide_eq_true_eq] at h
    rcases h with h | h
    · exact Or.inl h
    · exact Or.inr h.symm

theorem sparqlEnsureNode_contains_mono (labels : List (String × String)) (u : String)
    (acc : GraphAcc) (k : String) (h : alContains acc.nodes k = true) :
    alContains (sparqlEnsureNode labels u acc).nodes k = true := by
  by_cases hc : alContains acc.nodes u = true
  · rwa [sparqlEnsureNode, if_pos hc]
  · rw [sparqlEnsureNode, if_neg hc]
    simp [alContains_append_single, h]

/-- A SPARQLWrapper-style binding whose subject and predicate are bound
but whose object variable is missing (its extracted value is `""`). -/
def c3binding : Val :=
  .dict [("s", .dict [("value", .str "http://ex.com/alice")]),
         ("p", .dict [("value", .str "http://ex.com/name")])]

/-- C3 (counterexample): a binding with nonempty subject and predicate
and a missing object has object value `""`, which the claim's own test
classifies as a literal (it starts with none of the URI schemes); yet
`convert` adds no property keyed by the predicate local name `name` to
the subject node — the literal branch requires a nonempty object. -/
theorem c3_counterexample :
    get_value c3binding "s" ≠ "" ∧
    get_value c3binding "p" ≠ "" ∧
    some (get_value c3binding "p") ≠ sparqlDefault.node_label_predicate ∧
    is_uri (get_value c3binding "o") = false ∧
    SPARQLConverter.convert sparqlDefault (.list [c3binding]) =
      .ok ⟨[[("id", .str "http://ex.com/alice"), ("label", .str "alice"),
             ("uri", .str "http://ex.com/alice")]], []⟩ ∧
    alGet (([[("id", .str "http://ex.com/alice"), ("label", .str "alice"),
             ("uri", .str "http://ex.com/alice")]] : List Obj).headI) "name" = none := by decide

/-- C3 (amended): for every binding processed by the triple pass whose
subject and predicate values are nonempty and whose predicate is not
the configured label predicate: a nonempty non-URI (literal) object
creates no node beyond the subject, appends no edge, and sets a
property keyed by the predicate's local name on the subject node; an
empty object value only materializes the subject node; a URI object
materializes subject and object nodes and appends exactly one edge
labeled with the predicate's local name and carrying the full predicate
URI under `predicate`. -/
theorem c3_theorem (cfg : SparqlConfig) (labels : List (String × String))
    (acc : GraphAcc) (b : Val)
    (hs : get_value b cfg.subject_var ≠ "")
    (hp : get_value b cfg.predicate_var ≠ "")
    (hl : some (get_value b cfg.predicate_var) ≠ cfg.node_label_predicate) :
    (is_uri (get_value b cfg.object_var) = false → get_value b cfg.object_var ≠ "" →
      (sparqlStep cfg labels acc b).edges = acc.edges ∧
      (∀ k, alContains (sparqlStep cfg labels acc b).nodes k = true →
        alContains acc.nodes k = true ∨ k = get_value b cfg.subject_var) ∧
      (∃ o, alGet (sparqlStep cfg labels acc b).nodes (get_value b cfg.subject_var) = some o ∧
        alGet o (extract_local_name (get_value b cfg.predicate_var)) =
          some (.str (get_value b cfg.object_var)))) ∧
    (get_value b cfg.object_var = "" →
      (sparqlStep cfg labels acc b).edges = acc.edges ∧
      (∀ k, alContains (sparqlStep cfg labels acc b).nodes k = true →
        alContains acc.nodes k = true ∨ k = get_value b cfg.subject_var) ∧
      alContains (sparqlStep cfg labels acc b).nodes (get_value b cfg.subject_var) = true) ∧
    (is_uri (get_value b cfg.object_var) = true →
      (sparqlStep cfg labels acc b).edges = acc.edges ++
        [[("source", .str (get_value b cfg.subject_var)),
          ("target", .str (get_value b cfg.object_var)),
          ("label", .str (extract_local_name (get_value b cfg.predicate_var))),
          ("predicate", .str (get_value b cfg.predicate_var))]] ∧
      alContains (sparqlStep cfg labels acc b).nodes (get_value b cfg.subject_var) = true ∧
      alContains (sparqlStep cfg labels acc b).nodes (get_value b cfg.object_var) = true ∧
      (∀ k, alContains (sparqlStep cfg labels acc b).nodes k = true →
        alContains acc.nodes k = true ∨ k = get_value b cfg.subject_var ∨
          k = get_value b cfg.object_var)) := by
  have hstep : sparqlStep cfg labels acc b =
      sparqlTriple labels (get_value b cfg.subject_var) (get_value b cfg.predicate_var)
        (get_value b cfg.object_var) acc := by
    unfold sparqlStep
    simp [hs, hp, hl]
  rw [hstep]
  refine ⟨?_, ?_, ?_⟩
  · intro huri hne
    unfold sparqlTriple
    have hcond : (decide (get_value b cfg.object_var ≠ "") &&
        is_uri (get_value b cfg.object_var)) = false := by
      simp [huri]
    simp only [hcond, Bool.false_eq_true, if_false, if_pos hne]
    refine ⟨sparqlEnsureNode_edges labels _ acc, ?_, ?_⟩
    · intro k hk
      rw [alContains_alModify] at hk
      exact sparqlEnsureNode_mem labels _ acc k hk
    · have hc := sparqlEnsureNode_contains_self labels (get_value b cfg.subject_var) acc
      obtain ⟨o0, ho0⟩ := Option.isSome_iff_exists.1 hc
      refine ⟨alSet o0 (extract_local_name (get_value b cfg.predicate_var))
        (.str (get_value b cfg.object_var)), ?_, ?_⟩
      · rw [alGet_alModify_self, ho0]
        rfl
      · exact alGet_alSet_self _ _ _
  · intro hobj
    unfold sparqlTriple
    have hcond : (decide (get_value b cfg.object_var ≠ "") &&
        is_uri (get_value b cfg.object_var)) = false := by
      simp [hobj]
    have hne2 : ¬(get_value b cfg.object_var ≠ "") := by
      simp [hobj]
    simp only [hcond, Bool.false_eq_true, if_false, if_neg hne2]
    exact ⟨sparqlEnsureNode_edges labels _ acc,
      fun k hk => sparqlEnsureNode_mem labels _ acc k hk,
      sparqlEnsureNode_contains_self labels _ acc⟩
  · intro huri
    have hne : get_value b cfg.object_var ≠ "" := by
      intro he
      rw [he] at huri
      exact absurd huri (by decide)
    unfold sparqlTriple
    have hcond : (decide (get_value b cfg.object_var ≠ "") &&
        is_uri (get_value b cfg.object_var)) = true := by
      simp [huri, hne]
    simp only [hcond, if_true]
    refine ⟨?_, ?_, ?_, ?_⟩
    · rw [sparqlEnsureNode_edges, sparqlEnsureNode_edges]
    · exact sparqlEnsureNode_contains_mono labels _ _ _
        (sparqlEnsureNode_contains_self labels _ acc)
    · exact sparqlEnsureNode_contains_self labels _ _
    · intro k hk
      rcases sparqlEnsureNode_mem labels _ _ k hk with hk1 | hk1
      · rcases sparqlEnsureNode_mem labels _ acc k hk1 with hk2 | hk2
        · exact Or.inl hk2
        · exact Or.inr (Or.inl hk2)
      · exact Or.inr (Or.inr hk1)

/-- A literal-object binding used by the C3 witness. -/
def c3lit : Val :=
  .dict [("s", .dict [("value", .str "http://ex.com/alice")]),
         ("p", .dict [("value", .str "http://ex.com/name")]),
         ("o", .dict [("value", .str "Alice")])]

/-- C3 witness: the amended theorem applied at a concrete literal
binding — no edge is appended and the subject node gains the property
`name = "Alice"`. -/
theorem c3_witness :
    (sparqlStep sparqlDefault [] .empty c3lit).edges = [] ∧
    (∃ o, alGet (sparqlStep sparqlDefault [] .empty c3lit).nodes "http://ex.com/alice" = some o ∧
      alGet o "name" = some (.str "Alice")) := by
  have h := (c3_theorem sparqlDefault [] .empty c3lit (by decide) (by decide) (by decide)).1
    (by decide) (by decide)
  exact ⟨h.1, h.2.2⟩


/-! ## Last-encountered-node characterization of GraphQL extraction -/

theorem optMapOr {α β : Type} (f : α → β) (a b : Option α) :
    (a.or b).map f = (a.map f).or (b.map f) := by
  cases a <;> simp

theorem alGet_alSet {α : Type} (l : List (String × α)) (k k2 : String) (v : α) :
    alGet (alSet l k v) k2 = if k = k2 then some v else alGet l k2 := by
  by_cases h : k = k2
  · subst h; simp [alGet_alSet_self]
  · simp [h, alGet_alSet_ne l k k2 v h]

section orFold

variable {β : Type} {step : Option Obj → β → Option Obj}

theorem foldl_or_shift (hstep : ∀ cur x, step cur x = (step none x).or cur)
    (xs : List β) (cur : Option Obj) :
    xs.foldl step cur = (xs.foldl step none).or cur := by
  induction xs generalizing cur with
  | nil => simp
  | cons x rest ih =>
      rw [List.foldl_cons, List.foldl_cons, ih (step cur x), ih (step none x), hstep,
        Option.or_assoc]

end orFold

/-- The node stored by one auto-detection reference when the Python
equality class of its raw `ref_node["id"]` is `k`. -/
def autoRefHit (cfg : GraphqlConfig) (k : String) (ref : Obj) : Option Obj :=
  if alContains ref cfg.id_field = true ∧
      pyKeyNorm (nodeKey (item_to_node cfg ref)) = k then
    some (item_to_node cfg ref)
  else none

/-- Last reference with id `k` among the elements of a list-valued
entry (later elements override earlier ones). -/
def lastRefListStep (cfg : GraphqlConfig) (k : String) (cur : Option Obj) (it : Val) :
    Option Obj :=
  match it with
  | .dict ref => (autoRefHit cfg k ref).or cur
  | _ => cur

/-- Last reference with id `k` contributed by one entry of a detected
node mapping. -/
def lastRefKvStep (cfg : GraphqlConfig) (k : String) (cur : Option Obj)
    (kv : String × Val) : Option Obj :=
  match kv.2 with
  | .dict ref => (autoRefHit cfg k ref).or cur
  | .list items => items.foldl (lastRefListStep cfg k) cur
  | _ => cur

/-- Last reference with id `k` in a detected node mapping's entries. -/
def lastRefHits (cfg : GraphqlConfig) (k : String) (kvs : Obj) : Option Obj :=
  kvs.foldl (lastRefKvStep cfg k) none

mutual

/-- The node stored under the normalized key `k` after auto-detection
walks `data` (none when no mapping whose raw `node["id"]` falls in
that Python equality class is found): a detected node mapping
contributes itself and then its one-level references (which override
it); a non-node mapping and a list contribute the last hit of their
values/elements. -/
def lastAutoV (cfg : GraphqlConfig) : Val → String → Option Obj
  | .dict kvs, k =>
      if alContains kvs cfg.id_field then
        (lastRefHits cfg k kvs).or
          (if pyKeyNorm (nodeKey (item_to_node cfg kvs)) = k
           then some (item_to_node cfg kvs) else none)
      else lastAutoKvs cfg kvs k
  | .list xs, k => lastAutoL cfg xs k
  | _, _ => none

def lastAutoKvs (cfg : GraphqlConfig) : List (String × Val) → String → Option Obj
  | [], _ => none
  | kv :: rest, k => (lastAutoKvs cfg rest k).or (lastAutoV cfg kv.2 k)

def lastAutoL (cfg : GraphqlConfig) : List Val → String → Option Obj
  | [], _ => none
  | x :: rest, k => (lastAutoL cfg rest k).or (lastAutoV cfg x k)

end

theorem lastRefListStep_shift (cfg : GraphqlConfig) (k : String) :
    ∀ cur it, lastRefListStep cfg k cur it = (lastRefListStep cfg k none it).or cur := by
  intro cur it
  cases it <;> simp [lastRefListStep]

theorem lastRefKvStep_shift (cfg : GraphqlConfig) (k : String) :
    ∀ cur kv, lastRefKvStep cfg k cur kv = (lastRefKvStep cfg k none kv).or cur := by
  intro cur kv
  obtain ⟨key, v⟩ := kv
  cases v with
  | list items =>
      simp only [lastRefKvStep]
      exact foldl_or_shift (lastRefListStep_shift cfg k) items cur
  | dict ref => simp [lastRefKvStep]
  | null => simp [lastRefKvStep]
  | str s => simp [lastRefKvStep]
  | int n => simp [lastRefKvStep]
  | bool b => simp [lastRefKvStep]

theorem autoParentEdge_nodes (parent : Option String) (nid : Val) (acc : GraphAcc) :
    (autoParentEdge parent nid acc).nodes = acc.nodes := by
  cases parent with
  | none => rfl
  | some p =>
      show (if (decide (p ≠ "") && decide (nid ≠ Val.str p)) = true
            then _ else acc).nodes = acc.nodes
      split <;> rfl

theorem autoRefStep_lookup (cfg : GraphqlConfig) (nid : Val) (key : String) (acc : GraphAcc)
    (ref : Obj) (k : String) :
    alGet (autoRefStep cfg nid key acc ref).nodes k =
      (autoRefHit cfg k ref).or (alGet acc.nodes k) := by
  unfold autoRefStep autoRefHit
  by_cases hc : alContains ref cfg.id_field = true
  · simp only [hc, if_true]
    by_cases hk : pyKeyNorm (nodeKey (item_to_node cfg ref)) = k
    · simp [hk, alGet_alSet_self, true_and]
    · simp [hk, alGet_alSet_ne _ _ _ _ hk, hc]
  · simp [hc]

theorem autoRefListFold_lookup (cfg : GraphqlConfig) (nid : Val) (key : String)
    (items : List Val) (acc : GraphAcc) (k : String) :
    alGet (items.foldl (autoRefListStep cfg nid key) acc).nodes k =
      (items.foldl (lastRefListStep cfg k) none).or (alGet acc.nodes k) := by
  induction items generalizing acc with
  | nil => simp
  | cons it rest ih =>
      have helem : alGet (autoRefListStep cfg nid key acc it).nodes k =
          (lastRefListStep cfg k none it).or (alGet acc.nodes k) := by
        cases it <;> simp [autoRefListStep, lastRefListStep, autoRefStep_lookup]
      rw [List.foldl_cons, List.foldl_cons, ih, helem,
        foldl_or_shift (lastRefListStep_shift cfg k) rest (lastRefListStep cfg k none it),
        Option.or_assoc]

theorem autoRefScanStep_lookup (cfg : GraphqlConfig) (nid : Val) (acc : GraphAcc)
    (kv : String × Val) (k : String) :
    alGet (autoRefScanStep cfg nid acc kv).nodes k =
      (lastRefKvStep cfg k none kv).or (alGet acc.nodes k) := by
  obtain ⟨key, v⟩ := kv
  cases v with
  | dict ref => simp [autoRefScanStep, lastRefKvStep, autoRefStep_lookup]
  | list items =>
      simp only [autoRefScanStep, lastRefKvStep]
      exact autoRefListFold_lookup cfg nid key items acc k
  | null => simp [autoRefScanStep, lastRefKvStep]
  | str s => simp [autoRefScanStep, lastRefKvStep]
  | int n => simp [autoRefScanStep, lastRefKvStep]
  | bool b => simp [autoRefScanStep, lastRefKvStep]

theorem autoRefScan_lookup (cfg : GraphqlConfig) (nid : Val) (kvs : Obj)
    (acc : GraphAcc) (k : String) :
    alGet (autoRefScan cfg nid kvs acc).nodes k =
      (lastRefHits cfg k kvs).or (alGet acc.nodes k) := by
  unfold autoRefScan lastRefHits
  induction kvs generalizing acc with
  | nil => simp
  | cons kv rest ih =>
      rw [List.foldl_cons, List.foldl_cons, ih, autoRefScanStep_lookup,
        foldl_or_shift (lastRefKvStep_shift cfg k) rest (lastRefKvStep cfg k none kv),
        Option.or_assoc]

mutual

theorem autoExtract_lookup (cfg : GraphqlConfig) :
    ∀ (data : Val) (parent : Option String) (acc : GraphAcc) (k : String),
    alGet (autoExtract cfg data parent acc).nodes k =
      (lastAutoV cfg data k).or (alGet acc.nodes k)
  | .dict kvs, parent, acc, k => by
      by_cases hn : alContains kvs cfg.id_field = true
      · simp only [autoExtract, lastAutoV, hn, if_true]
        rw [autoRefScan_lookup, Option.or_assoc, autoParentEdge_nodes]
        congr 1
        show alGet (alSet acc.nodes (pyKeyNorm (nodeKey (item_to_node cfg kvs)))
          (item_to_node cfg kvs)) k = _
        rw [alGet_alSet]
        by_cases hk : pyKeyNorm (nodeKey (item_to_node cfg kvs)) = k <;> simp [hk]
      · simp only [autoExtract, lastAutoV, hn, Bool.false_eq_true, if_false]
        exact autoExtractKvs_lookup cfg kvs parent acc k
  | .list xs, parent, acc, k => by
      simp only [autoExtract, lastAutoV]
      exact autoExtractList_lookup cfg xs parent acc k
  | .null, parent, acc, k => by simp [autoExtract, lastAutoV]
  | .str s, parent, acc, k => by simp [autoExtract, lastAutoV]
  | .int n, parent, acc, k => by simp [autoExtract, lastAutoV]
  | .bool b, parent, acc, k => by simp [autoExtract, lastAutoV]

theorem autoExtractKvs_lookup (cfg : GraphqlConfig) :
    ∀ (kvs : List (String × Val)) (parent : Option String) (acc : GraphAcc) (k : String),
    alGet (autoExtractKvs cfg kvs parent acc).nodes k =
      (lastAutoKvs cfg kvs k).or (alGet acc.nodes k)
  | [], _, acc, k => by simp [autoExtractKvs, lastAutoKvs]
  | kv :: rest, parent, acc, k => by
      simp only [autoExtractKvs, lastAutoKvs]
      rw [autoExtractKvs_lookup cfg rest parent _ k, autoExtract_lookup cfg kv.2 parent acc k,
        Option.or_assoc]

theorem autoExtractList_lookup (cfg : GraphqlConfig) :
    ∀ (xs : List Val) (parent : Option String) (acc : GraphAcc) (k : String),
    alGet (autoExtractList cfg xs parent acc).nodes k =
      (lastAutoL cfg xs k).or (alGet acc.nodes k)
  | [], _, acc, k => by simp [autoExtractList, lastAutoL]
  | x :: rest, parent, acc, k => by
      simp only [autoExtractList, lastAutoL]
      rw [autoExtractList_lookup cfg rest parent _ k, autoExtract_lookup cfg x parent acc k,
        Option.or_assoc]

end


/-! ## Key-uniqueness of the auto-extraction node map -/

theorem autoRefStep_nodup (cfg : GraphqlConfig) (nid : Val) (key : String) (acc : GraphAcc)
    (ref : Obj) (h : (alKeys acc.nodes).Nodup) :
    (alKeys (autoRefStep cfg nid key acc ref).nodes).Nodup := by
  unfold autoRefStep
  split
  · exact alKeys_nodup_alSet _ _ _ h
  · exact h

theorem autoRefListFold_nodup (cfg : GraphqlConfig) (nid : Val) (key : String)
    (items : List Val) (acc : GraphAcc) (h : (alKeys acc.nodes).Nodup) :
    (alKeys ((items.foldl (autoRefListStep cfg nid key) acc)).nodes).Nodup := by
  induction items generalizing acc with
  | nil => exact h
  | cons it rest ih =>
      rw [List.foldl_cons]
      apply ih
      cases it <;> first
        | exact h
        | exact autoRefStep_nodup cfg nid key acc _ h

theorem autoRefScan_nodup (cfg : GraphqlConfig) (nid : Val) (kvs : Obj)
    (acc : GraphAcc) (h : (alKeys acc.nodes).Nodup) :
    (alKeys (autoRefScan cfg nid kvs acc).nodes).Nodup := by
  unfold autoRefScan
  induction kvs generalizing acc with
  | nil => exact h
  | cons kv rest ih =>
      rw [List.foldl_cons]
      apply ih
      obtain ⟨key, v⟩ := kv
      cases v with
      | dict ref => exact autoRefStep_nodup cfg nid key acc ref h
      | list items => exact autoRefListFold_nodup cfg nid key items acc h
      | null => exact h
      | str s => exact h
      | int n => exact h
      | bool b => exact h

mutual

theorem autoExtract_nodup (cfg : GraphqlConfig) :
    ∀ (data : Val) (parent : Option String) (acc : GraphAcc),
    (alKeys acc.nodes).Nodup → (alKeys (autoExtract cfg data parent acc).nodes).Nodup
  | .dict kvs, parent, acc, h => by
      by_cases hn : alContains kvs cfg.id_field = true
      · simp only [autoExtract, hn, if_true]
        apply autoRefScan_nodup
        rw [autoParentEdge_nodes]
        exact alKeys_nodup_alSet _ _ _ h
      · simp only [autoExtract, hn, Bool.false_eq_true, if_false]
        exact autoExtractKvs_nodup cfg kvs parent acc h
  | .list xs, parent, acc, h => by
      simp only [autoExtract]
      exact autoExtractList_nodup cfg xs parent acc h
  | .null, _, acc, h => by simpa [autoExtract] using h
  | .str s, _, acc, h => by simpa [autoExtract] using h
  | .int n, _, acc, h => by simpa [autoExtract] using h
  | .bool b, _, acc, h => by simpa [autoExtract] using h

theorem autoExtractKvs_nodup (cfg : GraphqlConfig) :
    ∀ (kvs : List (String × Val)) (parent : Option String) (acc : GraphAcc),
    (alKeys acc.nodes).Nodup → (alKeys (autoExtractKvs cfg kvs parent acc).nodes).Nodup
  | [], _, acc, h => by simpa [autoExtractKvs] using h
  | kv :: rest, parent, acc, h => by
      simp only [autoExtractKvs]
      exact autoExtractKvs_nodup cfg rest parent _ (autoExtract_nodup cfg kv.2 parent acc h)

theorem autoExtractList_nodup (cfg : GraphqlConfig) :
    ∀ (xs : List Val) (parent : Option String) (acc : GraphAcc),
    (alKeys acc.nodes).Nodup → (alKeys (autoExtractList cfg xs parent acc).nodes).Nodup
  | [], _, acc, h => by simpa [autoExtractList] using h
  | x :: rest, parent, acc, h => by
      simp only [autoExtractList]
      exact autoExtractList_nodup cfg rest parent _ (autoExtract_nodup cfg x parent acc h)

end

/-- In auto-detection mode (neither path truthy) the whole conversion
is one `autoExtract` walk from an empty accumulator. -/
theorem graphqlAcc_auto (cfg : GraphqlConfig) (data : Val)
    (h1 : optTruthy cfg.nodes_path = false) (h2 : optTruthy cfg.edges_path = false) :
    graphqlAcc cfg data = .ok (autoExtract cfg (graphqlUnwrap data) none .empty) := by
  unfold graphqlAcc graphqlNodesBlock graphqlEdgesBlock
  simp [h1, h2]

/-! ## Claim C8 -/

/-- `{"id": "1", "child": {"id": "2", "grand": {"id": "3"}}}`. -/
def c8input : Val :=
  .dict [("id", .str "1"),
         ("child", .dict [("id", .str "2"), ("grand", .dict [("id", .str "3")])])]

/-- C8 (counterexample): the mapping `{"id": "3"}` is nested inside the
detected node mapping `{"id": "2", ...}`, yet auto-detection emits only
the nodes `1` and `2` — references are scanned one level deep and never
recursed into. -/
theorem c8_counterexample :
    GraphQLConverter.convert graphqlDefault c8input =
      .ok ⟨[[("id", .str "1"), ("label", .str "1")], [("id", .str "2"), ("label", .str "2")]],
           [[("source", .str "1"), ("target", .str "2"), ("label", .str "child")]]⟩ ∧
    (alKeys (autoExtract graphqlDefault c8input none .empty).nodes).contains
      (pyKeyNorm (.str "3")) = false := by
  decide

/-- C8 (amended): in auto-detection mode the node map — keyed by the
Python equality class of the built node's raw `node["id"]` value — has
an entry under `k` exactly when the walk described by `lastAutoV`
finds a mapping whose built id falls in that class: recursion descends
through mappings not containing the id field and through lists; a
mapping containing the id field is itself a node, and its direct
mapping-valued entries and list elements containing the id field are
referenced nodes; mappings nested deeper inside a detected node
mapping are not extracted. -/
theorem c8_theorem (cfg : GraphqlConfig) (data : Val) (g : GraphAcc) (k : String)
    (h1 : optTruthy cfg.nodes_path = false) (h2 : optTruthy cfg.edges_path = false)
    (h : graphqlAcc cfg data = .ok g) :
    alContains g.nodes k = (lastAutoV cfg (graphqlUnwrap data) k).isSome := by
  rw [graphqlAcc_auto cfg data h1 h2] at h
  have hg : g = autoExtract cfg (graphqlUnwrap data) none .empty := by
    cases h
    rfl
  subst hg
  rw [alContains, autoExtract_lookup]
  simp [GraphAcc.empty, alGet]

/-- The accumulator produced on the C8 input (node-map keys are the
normalized Python equality classes of the string ids `1` and `2`). -/
def c8acc : GraphAcc :=
  ⟨[("s1", [("id", .str "1"), ("label", .str "1")]),
    ("s2", [("id", .str "2"), ("label", .str "2")])],
   [[("source", .str "1"), ("target", .str "2"), ("label", .str "child")]]⟩

/-- C8 witness: the amended characterization applied at the concrete
input, for the extracted id `2` and the unextracted id `3`. -/
theorem c8_witness :
    graphqlAcc graphqlDefault c8input = .ok c8acc ∧
    alContains c8acc.nodes (pyKeyNorm (.str "2")) =
      (lastAutoV graphqlDefault (graphqlUnwrap c8input) (pyKeyNorm (.str "2"))).isSome ∧
    alContains c8acc.nodes (pyKeyNorm (.str "3")) =
      (lastAutoV graphqlDefault (graphqlUnwrap c8input) (pyKeyNorm (.str "3"))).isSome :=
  ⟨by decide,
   c8_theorem graphqlDefault c8input c8acc (pyKeyNorm (.str "2"))
     (by decide) (by decide) (by decide),
   c8_theorem graphqlDefault c8input c8acc (pyKeyNorm (.str "3"))
     (by decide) (by decide) (by decide)⟩


/-! ## First-encountered-node characterization of Cypher conversion -/

mutual

/-- The first node-classified value with id `k` encountered by
`_process_value`'s traversal of one value (the raw value, before
`node_to_dict`). -/
def firstNodeV : Val → String → Option Val
  | .dict kvs, k =>
      if is_node (.dict kvs) = true ∧ get_node_id (.dict kvs) = k then some (.dict kvs)
      else none
  | .list xs, k => firstNodeL xs k
  | _, _ => none

def firstNodeL : List Val → String → Option Val
  | [], _ => none
  | x :: rest, k => (firstNodeV x k).or (firstNodeL rest k)

end

/-- First node with id `k` among one record's item values. -/
def firstNodeItems : Obj → String → Option Val
  | [], _ => none
  | kv :: rest, k => (firstNodeV kv.2 k).or (firstNodeItems rest k)

/-- First node with id `k` across the records. -/
def firstNodeRecs : List Val → String → Option Val
  | [], _ => none
  | r :: rest, k => (firstNodeItems (extract_items r) k).or (firstNodeRecs rest k)

/-- First node with id `k` in a whole Cypher result. -/
def cypherFirstNode (result : Val) (k : String) : Option Val :=
  firstNodeRecs (pyIterTop result) k

mutual

theorem processValue_lookup : ∀ (v : Val) (acc : GraphAcc) (k : String),
    alGet (processValue v acc).nodes k
      = (alGet acc.nodes k).or ((firstNodeV v k).map node_to_dict)
  | .dict kvs, acc, k => by
      by_cases hn : is_node (.dict kvs) = true
      · simp only [processValue, hn, if_true, firstNodeV]
        by_cases hc : alContains acc.nodes (get_node_id (.dict kvs)) = true
        · simp only [hc, if_true]
          by_cases hid : get_node_id (.dict kvs) = k
          · obtain ⟨o, ho⟩ := Option.isSome_iff_exists.1 (hid ▸ hc)
            simp [ho]
          · simp [hn, hid]
        · simp only [hc, Bool.false_eq_true, if_false, alGet_append]
          by_cases hid : get_node_id (.dict kvs) = k
          · have hnone : alGet acc.nodes k = none := by
              rw [← hid]
              exact Option.not_isSome_iff_eq_none.1 (by simpa [alContains] using hc)
            simp [hnone, alGet, hid, hn]
          · simp [alGet, hid, hn]
      · by_cases hr : is_relationship (.dict kvs) = true
        · simp [processValue, hn, hr, firstNodeV]
        · simp [processValue, hn, hr, firstNodeV]
  | .list xs, acc, k => by
      simp only [processValue, firstNodeV]
      exact processValueList_lookup xs acc k
  | .null, acc, k => by simp [processValue, firstNodeV]
  | .str s, acc, k => by simp [processValue, firstNodeV]
  | .int n, acc, k => by simp [processValue, firstNodeV]
  | .bool b, acc, k => by simp [processValue, firstNodeV]

theorem processValueList_lookup : ∀ (xs : List Val) (acc : GraphAcc) (k : String),
    alGet (processValueList xs acc).nodes k
      = (alGet acc.nodes k).or ((firstNodeL xs k).map node_to_dict)
  | [], acc, k => by simp [processValueList, firstNodeL]
  | x :: rest, acc, k => by
      simp only [processValueList, firstNodeL]
      rw [processValueList_lookup rest _ k, processValue_lookup x acc k, optMapOr,
        Option.or_assoc]

end

theorem processItems_lookup : ∀ (o : Obj) (acc : GraphAcc) (k : String),
    alGet (processItems o acc).nodes k
      = (alGet acc.nodes k).or ((firstNodeItems o k).map node_to_dict)
  | [], acc, k => by simp [processItems, firstNodeItems]
  | kv :: rest, acc, k => by
      simp only [processItems, firstNodeItems]
      rw [processItems_lookup rest _ k, processValue_lookup kv.2 acc k, optMapOr,
        Option.or_assoc]

theorem processRecords_lookup : ∀ (records : List Val) (acc : GraphAcc) (k : String),
    alGet (processRecords records acc).nodes k
      = (alGet acc.nodes k).or ((firstNodeRecs records k).map node_to_dict)
  | [], acc, k => by simp [processRecords, firstNodeRecs]
  | r :: rest, acc, k => by
      simp only [processRecords, firstNodeRecs]
      rw [processRecords_lookup rest _ k, processItems_lookup (extract_items r) acc k, optMapOr,
        Option.or_assoc]

theorem cypherAcc_lookup (result : Val) (k : String) :
    alGet (cypherAcc result).nodes k = (cypherFirstNode result k).map node_to_dict := by
  unfold cypherAcc cypherFirstNode
  rw [processRecords_lookup]
  simp [GraphAcc.empty, alGet]

theorem alKeys_nodup_append {α : Type} (l : List (String × α)) (k : String) (v : α)
    (h : (alKeys l).Nodup) (hc : alContains l k = false) :
    (alKeys (l ++ [(k, v)])).Nodup := by
  have hm : k ∉ alKeys l := by
    intro hmem
    simp [(alContains_iff_mem l k).2 hmem] at hc
  simp only [alKeys, List.map_append, List.map_cons, List.map_nil]
  rw [List.nodup_append]
  refine ⟨h, List.nodup_singleton k, ?_⟩
  intro a ha hb
  simp only [List.mem_singleton] at hb
  subst hb
  exact hm ha

mutual

theorem processValue_nodup : ∀ (v : Val) (acc : GraphAcc),
    (alKeys acc.nodes).Nodup → (alKeys (processValue v acc).nodes).Nodup
  | .dict kvs, acc, h => by
      by_cases hn : is_node (.dict kvs) = true
      · simp only [processValue, hn, if_true]
        by_cases hc : alContains acc.nodes (get_node_id (.dict kvs)) = true
        · simpa [hc] using h
        · simp only [hc, Bool.false_eq_true, if_false]
          exact alKeys_nodup_append _ _ _ h (by simpa using hc)
      · by_cases hr : is_relationship (.dict kvs) = true
        · simpa [processValue, hn, hr] using h
        · simpa [processValue, hn, hr] using h
  | .list xs, acc, h => by
      simp only [processValue]
      exact processValueList_nodup xs acc h
  | .null, acc, h => by simpa [processValue] using h
  | .str s, acc, h => by simpa [processValue] using h
  | .int n, acc, h => by simpa [processValue] using h
  | .bool b, acc, h => by simpa [processValue] using h

theorem processValueList_nodup : ∀ (xs : List Val) (acc : GraphAcc),
    (alKeys acc.nodes).Nodup → (alKeys (processValueList xs acc).nodes).Nodup
  | [], acc, h => by simpa [processValueList] using h
  | x :: rest, acc, h => by
      simp only [processValueList]
      exact processValueList_nodup rest _ (processValue_nodup x acc h)

end

theorem processItems_nodup : ∀ (o : Obj) (acc : GraphAcc),
    (alKeys acc.nodes).Nodup → (alKeys (processItems o acc).nodes).Nodup
  | [], acc, h => by simpa [processItems] using h
  | kv :: rest, acc, h => by
      simp only [processItems]
      exact processItems_nodup rest _ (processValue_nodup kv.2 acc h)

theorem processRecords_nodup : ∀ (records : List Val) (acc : GraphAcc),
    (alKeys acc.nodes).Nodup → (alKeys (processRecords records acc).nodes).Nodup
  | [], acc, h => by simpa [processRecords] using h
  | r :: rest, acc, h => by
      simp only [processRecords]
      exact processRecords_nodup rest _ (processItems_nodup (extract_items r) acc h)

theorem cypherAcc_nodup (result : Val) : (alKeys (cypherAcc result).nodes).Nodup :=
  processRecords_nodup (pyIterTop result) .empty (by simp [GraphAcc.empty, alKeys])


/-! ## First-encountered-vertex characterization of Gremlin conversion -/

mutual

/-- The first vertex-shaped mapping with stringified id `k` encountered
by `_process_item` (already built into its node dict). -/
def gremFirstV : Val → String → Option Obj
  | .dict kvs, k =>
      if alContains kvs "IN" && alContains kvs "OUT" then none
      else if alContains kvs "id" = true ∧ gremlinVertexId kvs = k then
        some (gremlinVertexFromDict kvs)
      else none
  | .list xs, k => gremFirstL xs k
  | _, _ => none

def gremFirstL : List Val → String → Option Obj
  | [], _ => none
  | x :: rest, k => (gremFirstV x k).or (gremFirstL rest k)

end

/-- First vertex with id `k` in a whole Gremlin result. -/
def gremlinFirstNode (result : Val) (k : String) : Option Obj :=
  gremFirstL (pyIterTop result) k

theorem gremlinProcessDict_lookup (kvs : Obj) (acc g : GraphAcc) (k : String)
    (h : gremlinProcessDict kvs acc = .ok g) :
    alGet g.nodes k = (alGet acc.nodes k).or (gremFirstV (.dict kvs) k) := by
  unfold gremlinProcessDict at h
  by_cases hio : (alContains kvs "IN" && alContains kvs "OUT") = true
  · rw [if_pos hio] at h
    cases hed : gremlinEdgeFromDict kvs with
    | error err => rw [hed] at h; cases h
    | ok e =>
        rw [hed] at h
        have hg : g = { acc with edges := acc.edges ++ [e] } := by cases h; rfl
        subst hg
        simp [gremFirstV, hio]
  · rw [if_neg hio] at h
    by_cases hid : alContains kvs "id" = true
    · rw [if_pos hid] at h
      by_cases hc : alContains acc.nodes (gremlinVertexId kvs) = true
      · rw [if_pos hc] at h
        have hg : g = acc := by cases h; rfl
        subst hg
        simp only [gremFirstV, hio, Bool.false_eq_true, if_false]
        by_cases hk : gremlinVertexId kvs = k
        · obtain ⟨o, ho⟩ := Option.isSome_iff_exists.1 (hk ▸ hc)
          simp [ho]
        · simp [hid, hk]
      · rw [if_neg hc] at h
        have hg : g = { acc with nodes :=
            acc.nodes ++ [(gremlinVertexId kvs, gremlinVertexFromDict kvs)] } := by
          cases h; rfl
        subst hg
        simp only [gremFirstV, hio, Bool.false_eq_true, if_false, alGet_append]
        by_cases hk : gremlinVertexId kvs = k
        · have hnone : alGet acc.nodes k = none := by
            rw [← hk]
            exact Option.not_isSome_iff_eq_none.1 (by simpa [alContains] using hc)
          simp [hnone, alGet, hk, hid]
        · simp [alGet, hk, hid]
    · rw [if_neg hid] at h
      have hg : g = acc := by cases h; rfl
      subst hg
      simp only [gremFirstV, hio, Bool.false_eq_true, if_false]
      have hfalse : ¬(alContains kvs "id" = true ∧ gremlinVertexId kvs = k) := by
        intro hand
        exact hid hand.1
      simp [hfalse]

mutual

theorem gremlinProcessItem_lookup : ∀ (v : Val) (acc g : GraphAcc) (k : String),
    gremlinProcessItem v acc = .ok g →
    alGet g.nodes k = (alGet acc.nodes k).or (gremFirstV v k)
  | .dict kvs, acc, g, k, h => gremlinProcessDict_lookup kvs acc g k h
  | .list xs, acc, g, k, h => by
      simp only [gremlinProcessItem] at h
      simp only [gremFirstV]
      exact gremlinProcessList_lookup xs acc g k h
  | .null, acc, g, k, h => by
      cases h
      simp [gremFirstV]
  | .str s, acc, g, k, h => by
      cases h
      simp [gremFirstV]
  | .int n, acc, g, k, h => by
      cases h
      simp [gremFirstV]
  | .bool b, acc, g, k, h => by
      cases h
      simp [gremFirstV]

theorem gremlinProcessList_lookup : ∀ (xs : List Val) (acc g : GraphAcc) (k : String),
    gremlinProcessList xs acc = .ok g →
    alGet g.nodes k = (alGet acc.nodes k).or (gremFirstL xs k)
  | [], acc, g, k, h => by
      cases h
      simp [gremFirstL]
  | x :: rest, acc, g, k, h => by
      simp only [gremlinProcessList] at h
      cases hx : gremlinProcessItem x acc with
      | error err => rw [hx] at h; cases h
      | ok acc1 =>
          rw [hx] at h
          rw [gremlinProcessList_lookup rest acc1 g k h,
            gremlinProcessItem_lookup x acc acc1 k hx]
          simp only [gremFirstL]
          rw [Option.or_assoc]

end

theorem gremlinAcc_lookup (result : Val) (g : GraphAcc) (k : String)
    (h : gremlinAcc result = .ok g) :
    alGet g.nodes k = gremlinFirstNode result k := by
  unfold gremlinAcc at h
  unfold gremlinFirstNode
  rw [gremlinProcessList_lookup (pyIterTop result) .empty g k h]
  simp [GraphAcc.empty, alGet]


theorem gremlinProcessDict_nodup (kvs : Obj) (acc g : GraphAcc)
    (h : gremlinProcessDict kvs acc = .ok g) (hnd : (alKeys acc.nodes).Nodup) :
    (alKeys g.nodes).Nodup := by
  unfold gremlinProcessDict at h
  by_cases hio : (alContains kvs "IN" && alContains kvs "OUT") = true
  · rw [if_pos hio] at h
    cases hed : gremlinEdgeFromDict kvs with
    | error err => rw [hed] at h; cases h
    | ok e =>
        rw [hed] at h
        cases h
        exact hnd
  · rw [if_neg hio] at h
    by_cases hid : alContains kvs "id" = true
    · rw [if_pos hid] at h
      by_cases hc : alContains acc.nodes (gremlinVertexId kvs) = true
      · rw [if_pos hc] at h
        cases h
        exact hnd
      · rw [if_neg hc] at h
        cases h
        exact alKeys_nodup_append _ _ _ hnd (by simpa using hc)
    · rw [if_neg hid] at h
      cases h
      exact hnd

mutual

theorem gremlinProcessItem_nodup : ∀ (v : Val) (acc g : GraphAcc),
    gremlinProcessItem v acc = .ok g → (alKeys acc.nodes).Nodup → (alKeys g.nodes).Nodup
  | .dict kvs, acc, g, h, hnd => gremlinProcessDict_nodup kvs acc g h hnd
  | .list xs, acc, g, h, hnd => by
      simp only [gremlinProcessItem] at h
      exact gremlinProcessList_nodup xs acc g h hnd
  | .null, acc, g, h, hnd => by
      cases h
      exact hnd
  | .str s, acc, g, h, hnd => by
      cases h
      exact hnd
  | .int n, acc, g, h, hnd => by
      cases h
      exact hnd
  | .bool b, acc, g, h, hnd => by
      cases h
      exact hnd

theorem gremlinProcessList_nodup : ∀ (xs : List Val) (acc g : GraphAcc),
    gremlinProcessList xs acc = .ok g → (alKeys acc.nodes).Nodup → (alKeys g.nodes).Nodup
  | [], acc, g, h, hnd => by
      cases h
      exact hnd
  | x :: rest, acc, g, h, hnd => by
      simp only [gremlinProcessList] at h
      cases hx : gremlinProcessItem x acc with
      | error err => rw [hx] at h; cases h
      | ok acc1 =>
          rw [hx] at h
          exact gremlinProcessList_nodup rest acc1 g h
            (gremlinProcessItem_nodup x acc acc1 hx hnd)

end

theorem gremlinAcc_nodup (result : Val) (g : GraphAcc) (h : gremlinAcc result = .ok g) :
    (alKeys g.nodes).Nodup := by
  unfold gremlinAcc at h
  exact gremlinProcessList_nodup (pyIterTop result) .empty g h (by simp [GraphAcc.empty, alKeys])

/-! ## Key-uniqueness of the SPARQL node map -/

theorem sparqlEnsureNode_nodup (labels : List (String × String)) (u : String)
    (acc : GraphAcc) (h : (alKeys acc.nodes).Nodup) :
    (alKeys (sparqlEnsureNode labels u acc).nodes).Nodup := by
  by_cases hc : alContains acc.nodes u = true
  · rwa [sparqlEnsureNode, if_pos hc]
  · rw [sparqlEnsureNode, if_neg hc]
    exact alKeys_nodup_append _ _ _ h (by simpa using hc)

theorem sparqlTriple_nodup (labels : List (String × String)) (subj pred obj : String)
    (acc : GraphAcc) (h : (alKeys acc.nodes).Nodup) :
    (alKeys (sparqlTriple labels subj pred obj acc).nodes).Nodup := by
  unfold sparqlTriple
  by_cases hc : (decide (obj ≠ "") && is_uri obj) = true
  · simp only [hc, if_true]
    exact sparqlEnsureNode_nodup labels obj _ (sparqlEnsureNode_nodup labels subj acc h)
  · simp only [hc, Bool.false_eq_true, if_false]
    by_cases hne : obj ≠ ""
    · rw [if_pos hne]
      show (alKeys (alModify (sparqlEnsureNode labels subj acc).nodes subj
        (fun o => alSet o (extract_local_name pred) (.str obj)))).Nodup
      rw [alKeys_alModify]
      exact sparqlEnsureNode_nodup labels subj acc h
    · rw [if_neg hne]
      exact sparqlEnsureNode_nodup labels subj acc h


theorem sparqlStep_nodup (cfg : SparqlConfig) (labels : List (String × String))
    (acc : GraphAcc) (b : Val) (h : (alKeys acc.nodes).Nodup) :
    (alKeys (sparqlStep cfg labels acc b).nodes).Nodup := by
  unfold sparqlStep
  by_cases h1 : (decide (get_value b cfg.subject_var = "") ||
      decide (get_value b cfg.predicate_var = "")) = true
  · simp only [h1, if_true]
    exact h
  · simp only [h1, Bool.false_eq_true, if_false]
    by_cases h2 : some (get_value b cfg.predicate_var) = cfg.node_label_predicate
    · rw [if_pos h2]
      exact h
    · rw [if_neg h2]
      exact sparqlTriple_nodup labels _ _ _ acc h

theorem sparqlFold_nodup (cfg : SparqlConfig) (labels : List (String × String)) :
    ∀ (bindings : List Val) (acc : GraphAcc), (alKeys acc.nodes).Nodup →
    (alKeys (bindings.foldl (sparqlStep cfg labels) acc).nodes).Nodup
  | [], acc, h => h
  | b :: rest, acc, h => by
      rw [List.foldl_cons]
      exact sparqlFold_nodup cfg labels rest _ (sparqlStep_nodup cfg labels acc b h)

theorem sparqlAcc_nodup (cfg : SparqlConfig) (result : Val) (g : GraphAcc)
    (h : sparqlAcc cfg result = .ok g) : (alKeys g.nodes).Nodup := by
  unfold sparqlAcc at h
  cases hb : iter_bindings result with
  | error err => rw [hb] at h; cases h
  | ok bindings =>
      rw [hb] at h
      have hg : g = bindings.foldl (sparqlStep cfg (sparqlLabels cfg bindings)) .empty := by
        cases h
        rfl
      subst hg
      exact sparqlFold_nodup cfg _ bindings .empty (by simp [GraphAcc.empty, alKeys])

/-! ## Last-encountered characterization of the explicit nodes-path loop -/

/-- The node stored by one `nodes_path` item when the Python equality
class of its raw `node["id"]` is `k` (later items override earlier
ones). -/
def lastPathStep (cfg : GraphqlConfig) (k : String) (cur : Option Obj) (it : Val) :
    Option Obj :=
  match it with
  | .dict kvs =>
      (if pyKeyNorm (nodeKey (item_to_node cfg kvs)) = k
       then some (item_to_node cfg kvs) else none).or cur
  | _ => cur

/-- The last `nodes_path` item carrying id `k`. -/
def lastPathHit (cfg : GraphqlConfig) (k : String) (items : List Val) : Option Obj :=
  items.foldl (lastPathStep cfg k) none

theorem lastPathStep_shift (cfg : GraphqlConfig) (k : String) :
    ∀ cur it, lastPathStep cfg k cur it = (lastPathStep cfg k none it).or cur := by
  intro cur it
  cases it <;> simp [lastPathStep]

theorem graphqlNodesFold_lookup (cfg : GraphqlConfig) (items : List Val) (acc : GraphAcc)
    (k : String) :
    alGet (items.foldl (graphqlNodeStep cfg) acc).nodes k =
      (lastPathHit cfg k items).or (alGet acc.nodes k) := by
  unfold lastPathHit
  induction items generalizing acc with
  | nil => simp
  | cons it rest ih =>
      have helem : alGet (graphqlNodeStep cfg acc it).nodes k =
          (lastPathStep cfg k none it).or (alGet acc.nodes k) := by
        cases it with
        | dict kvs =>
            simp only [graphqlNodeStep, lastPathStep]
            rw [alGet_alSet]
            by_cases hk : pyKeyNorm (nodeKey (item_to_node cfg kvs)) = k <;> simp [hk]
        | null => simp [graphqlNodeStep, lastPathStep]
        | str s => simp [graphqlNodeStep, lastPathStep]
        | int n => simp [graphqlNodeStep, lastPathStep]
        | bool b => simp [graphqlNodeStep, lastPathStep]
        | list xs => simp [graphqlNodeStep, lastPathStep]
      rw [List.foldl_cons, List.foldl_cons, ih, helem,
        foldl_or_shift (lastPathStep_shift cfg k) rest (lastPathStep cfg k none it),
        Option.or_assoc]


/-! ## Claim C1 -/

/-- `[{"id": "1", "name": "A"}, {"id": "1", "name": "B"}]`. -/
def c1dupInput : Val :=
  .list [.dict [("id", .str "1"), ("name", .str "A")],
         .dict [("id", .str "1"), ("name", .str "B")]]

/-- A literal triple `alice name "Alice"`. -/
def c1b1 : Val :=
  .dict [("s", .dict [("value", .str "http://ex.com/alice")]),
         ("p", .dict [("value", .str "http://ex.com/name")]),
         ("o", .dict [("value", .str "Alice")])]

/-- A literal triple `alice age "30"`. -/
def c1b2 : Val :=
  .dict [("s", .dict [("value", .str "http://ex.com/alice")]),
         ("p", .dict [("value", .str "http://ex.com/age")]),
         ("o", .dict [("value", .str "30")])]

/-- C1 (counterexample): first-seen-wins fails for two converters.  In
GraphQL auto-detection the duplicate id `1` keeps the LAST
representation's values (`name = "B"`, not the first-encountered
`"A"`); in SPARQL a second triple about the same subject is merged into
the existing entry (the node gains `age` after its first
representation was already stored). -/
theorem c1_counterexample :
    GraphQLConverter.convert graphqlDefault c1dupInput =
      .ok ⟨[[("id", .str "1"), ("label", .str "B"), ("name", .str "B")]], []⟩ ∧
    SPARQLConverter.convert sparqlDefault (.list [c1b1]) =
      .ok ⟨[[("id", .str "http://ex.com/alice"), ("label", .str "alice"),
             ("uri", .str "http://ex.com/alice"), ("name", .str "Alice")]], []⟩ ∧
    SPARQLConverter.convert sparqlDefault (.list [c1b1, c1b2]) =
      .ok ⟨[[("id", .str "http://ex.com/alice"), ("label", .str "alice"),
             ("uri", .str "http://ex.com/alice"), ("name", .str "Alice"),
             ("age", .str "30")]], []⟩ := by decide

/-- C1 (amended): each converter keeps exactly one node entry per id
(pairwise-distinct map keys), but the winning representation differs.
Cypher/GQL: the entry under id `k` is `node_to_dict` of the FIRST
node-classified value with that id in traversal order, later
duplicates dropped unmerged.  Gremlin: likewise the first vertex-shaped
mapping wins.  SPARQL: one entry per URI, though later triples may
still add properties to it.  GraphQL: the map is keyed by the Python
equality class of the built node's raw `node["id"]` value (which a
scalar `id` entry overwrites when the configured id field is not
`id`), one entry per class remains, and the LAST-encountered
representation wins, both in auto-detection mode and in the explicit
`nodes_path` loop. -/
theorem c1_theorem :
    (∀ (result : Val) (k : String),
       alGet (cypherAcc result).nodes k = (cypherFirstNode result k).map node_to_dict) ∧
    (∀ result : Val, (alKeys (cypherAcc result).nodes).Nodup) ∧
    (∀ result : Val, GQLConverter.convert result = CypherConverter.convert result) ∧
    (∀ (result : Val) (g : GraphAcc) (k : String),
       gremlinAcc result = .ok g → alGet g.nodes k = gremlinFirstNode result k) ∧
    (∀ (result : Val) (g : GraphAcc),
       gremlinAcc result = .ok g → (alKeys g.nodes).Nodup) ∧
    (∀ (cfg : SparqlConfig) (result : Val) (g : GraphAcc),
       sparqlAcc cfg result = .ok g → (alKeys g.nodes).Nodup) ∧
    (∀ (cfg : GraphqlConfig) (data : Val) (g : GraphAcc) (k : String),
       optTruthy cfg.nodes_path = false → optTruthy cfg.edges_path = false →
       graphqlAcc cfg data = .ok g →
       alGet g.nodes k = lastAutoV cfg (graphqlUnwrap data) k) ∧
    (∀ (cfg : GraphqlConfig) (data : Val) (g : GraphAcc),
       optTruthy cfg.nodes_path = false → optTruthy cfg.edges_path = false →
       graphqlAcc cfg data = .ok g → (alKeys g.nodes).Nodup) ∧
    (∀ (cfg : GraphqlConfig) (items : List Val) (k : String),
       alGet (items.foldl (graphqlNodeStep cfg) GraphAcc.empty).nodes k =
         lastPathHit cfg k items) := by
  refine ⟨cypherAcc_lookup, cypherAcc_nodup, fun _ => rfl, gremlinAcc_lookup,
    gremlinAcc_nodup, sparqlAcc_nodup, ?_, ?_, ?_⟩
  · intro cfg data g k h1 h2 h
    rw [graphqlAcc_auto cfg data h1 h2] at h
    have hg : g = autoExtract cfg (graphqlUnwrap data) none .empty := by
      cases h
      rfl
    subst hg
    rw [autoExtract_lookup]
    simp [GraphAcc.empty, alGet]
  · intro cfg data g h1 h2 h
    rw [graphqlAcc_auto cfg data h1 h2] at h
    have hg : g = autoExtract cfg (graphqlUnwrap data) none .empty := by
      cases h
      rfl
    subst hg
    exact autoExtract_nodup cfg _ none .empty (by simp [GraphAcc.empty, alKeys])
  · intro cfg items k
    rw [graphqlNodesFold_lookup]
    simp [GraphAcc.empty, alGet]

/-- The accumulator for the C1 witness input. -/
def c1gacc : GraphAcc :=
  ⟨[("1", [("id", .str "1"), ("name", .str "X")])], []⟩

/-- C1 witness: the Gremlin clause applied at a concrete input with a
duplicate vertex id — the stored entry is the first representation. -/
theorem c1_witness :
    gremlinAcc (.list [.dict [("id", .str "1"), ("name", .str "X")],
      .dict [("id", .str "1"), ("name", .str "Y")]]) = .ok c1gacc ∧
    alGet c1gacc.nodes "1" =
      gremlinFirstNode (.list [.dict [("id", .str "1"), ("name", .str "X")],
        .dict [("id", .str "1"), ("name", .str "Y")]]) "1" ∧
    gremlinFirstNode (.list [.dict [("id", .str "1"), ("name", .str "X")],
      .dict [("id", .str "1"), ("name", .str "Y")]]) "1" =
      some [("id", .str "1"), ("name", .str "X")] :=
  ⟨by decide,
   c1_theorem.2.2.2.1 _ c1gacc "1" (by decide),
   by decide⟩


/-! ## Shape invariants of emitted nodes and edges (claim C5) -/

/-- An edge dict with string-valued `source` and `target` entries. -/
def edgeHasStrEndpoints (e : Obj) : Prop :=
  (∃ s, alGet e "source" = some (Val.str s)) ∧ (∃ t, alGet e "target" = some (Val.str t))

/-- Every value of the dict is a string. -/
def objAllStr (o : Obj) : Prop := ∀ p ∈ o, ∃ s, p.2 = Val.str s

theorem alSet_forall {α : Type} (P : α → Prop) (l : List (String × α)) (k : String) (v : α)
    (hl : ∀ kv ∈ l, P kv.2) (hv : P v) : ∀ kv ∈ alSet l k v, P kv.2 := by
  induction l with
  | nil =>
      intro kv hm
      simp only [alSet, List.mem_singleton] at hm
      subst hm
      exact hv
  | cons kv0 rest ih =>
      obtain ⟨k0, v0⟩ := kv0
      intro kv hm
      by_cases h : k0 = k
      · rw [alSet, if_pos h] at hm
        rcases List.mem_cons.1 hm with hm | hm
        · subst hm
          exact hv
        · exact hl kv (List.mem_cons_of_mem _ hm)
      · rw [alSet, if_neg h] at hm
        rcases List.mem_cons.1 hm with hm | hm
        · subst hm
          exact hl (k0, v0) (List.mem_cons_self _ _)
        · exact ih (fun p hp => hl p (List.mem_cons_of_mem _ hp)) kv hm

theorem alModify_forall {α : Type} (P : α → Prop) (l : List (String × α)) (k : String)
    (f : α → α) (hl : ∀ kv ∈ l, P kv.2) (hf : ∀ v, P v → P (f v)) :
    ∀ kv ∈ alModify l k f, P kv.2 := by
  induction l with
  | nil =>
      intro kv hm
      simp [alModify] at hm
  | cons kv0 rest ih =>
      obtain ⟨k0, v0⟩ := kv0
      intro kv hm
      by_cases h : k0 = k
      · rw [alModify, if_pos h] at hm
        rcases List.mem_cons.1 hm with hm | hm
        · subst hm
          exact hf v0 (hl (k0, v0) (List.mem_cons_self _ _))
        · exact hl kv (List.mem_cons_of_mem _ hm)
      · rw [alModify, if_neg h] at hm
        rcases List.mem_cons.1 hm with hm | hm
        · subst hm
          exact hl (k0, v0) (List.mem_cons_self _ _)
        · exact ih (fun p hp => hl p (List.mem_cons_of_mem _ hp)) kv hm

theorem alContains_alUpdate_mono {α : Type} (l other : List (String × α)) (k : String)
    (h : alContains l k = true) : alContains (alUpdate l other) k = true := by
  unfold alUpdate
  induction other generalizing l with
  | nil => exact h
  | cons kv rest ih =>
      rw [List.foldl_cons]
      exact ih _ (alContains_alSet_mono _ _ _ _ h)

/-- The final label-from-name step of `node_to_dict` keeps the `id`
key. -/
theorem labelFromName_contains_id (o : Obj) (h : alContains o "id" = true) :
    alContains (if (!alContains o "label" && alContains o "name") = true
      then alSet o "label" (alGetD o "name" Val.null) else o) "id" = true := by
  split
  · exact alContains_alSet_mono _ _ _ _ h
  · exact h

/-- Every node dict built by `node_to_dict` keeps an `id` key. -/
theorem node_to_dict_has_id (v : Val) : alContains (node_to_dict v) "id" = true := by
  cases v with
  | dict kvs =>
      exact labelFromName_contains_id _
        (alContains_alUpdate_mono [("id", Val.str (get_node_id (.dict kvs)))] kvs "id" rfl)
  | null => exact labelFromName_contains_id [("id", Val.str (get_node_id Val.null))] rfl
  | str s => exact labelFromName_contains_id [("id", Val.str (get_node_id (Val.str s)))] rfl
  | int n => exact labelFromName_contains_id [("id", Val.str (get_node_id (Val.int n)))] rfl
  | bool b => exact labelFromName_contains_id [("id", Val.str (get_node_id (Val.bool b)))] rfl
  | list xs => exact labelFromName_contains_id [("id", Val.str (get_node_id (Val.list xs)))] rfl

/-- Every edge dict built by `relationship_to_dict` from a mapping has
string `source` and `target` values. -/
theorem relationship_to_dict_endpoints (kvs : Obj) :
    edgeHasStrEndpoints (relationship_to_dict (.dict kvs)) := by
  unfold relationship_to_dict edgeHasStrEndpoints
  have hs : "label" ≠ "source" := by decide
  have ht : "label" ≠ "target" := by decide
  by_cases h1 : alContains kvs "type" = true
  · simp only [h1, if_true]
    exact ⟨⟨_, by rw [alGet_alSet_ne _ _ _ _ hs]; rfl⟩,
           ⟨_, by rw [alGet_alSet_ne _ _ _ _ ht]; rfl⟩⟩
  · simp only [h1, Bool.false_eq_true, if_false]
    by_cases h2 : alContains kvs "label" = true
    · simp only [h2, if_true]
      exact ⟨⟨_, by rw [alGet_alSet_ne _ _ _ _ hs]; rfl⟩,
             ⟨_, by rw [alGet_alSet_ne _ _ _ _ ht]; rfl⟩⟩
    · simp only [h2, Bool.false_eq_true, if_false]
      exact ⟨⟨_, rfl⟩, ⟨_, rfl⟩⟩

/-- The joint C5 invariant for the Cypher accumulator. -/
def cypherInv (acc : GraphAcc) : Prop :=
  (∀ e ∈ acc.edges, edgeHasStrEndpoints e) ∧
  (∀ kv ∈ acc.nodes, alContains (kv.2 : Obj) "id" = true)

mutual

theorem processValue_inv : ∀ (v : Val) (acc : GraphAcc),
    cypherInv acc → cypherInv (processValue v acc)
  | .dict kvs, acc, h => by
      by_cases hn : is_node (.dict kvs) = true
      · simp only [processValue, hn, if_true]
        by_cases hc : alContains acc.nodes (get_node_id (.dict kvs)) = true
        · simpa [hc] using h
        · simp only [hc, Bool.false_eq_true, if_false]
          refine ⟨h.1, ?_⟩
          intro kv hm
          rcases List.mem_append.1 hm with hm | hm
          · exact h.2 kv hm
          · rcases List.mem_singleton.1 hm with rfl
            show alContains (node_to_dict (Val.dict kvs)) "id" = true
            exact node_to_dict_has_id _
      · by_cases hr : is_relationship (.dict kvs) = true
        · simp only [processValue, hn, Bool.false_eq_true, if_false, hr, if_true]
          refine ⟨?_, h.2⟩
          intro e hm
          rcases List.mem_append.1 hm with hm | hm
          · exact h.1 e hm
          · rcases List.mem_singleton.1 hm with rfl
            exact relationship_to_dict_endpoints kvs
        · simpa [processValue, hn, hr] using h
  | .list xs, acc, h => by
      simp only [processValue]
      exact processValueList_inv xs acc h
  | .null, acc, h => by simpa [processValue] using h
  | .str s, acc, h => by simpa [processValue] using h
  | .int n, acc, h => by simpa [processValue] using h
  | .bool b, acc, h => by simpa [processValue] using h

theorem processValueList_inv : ∀ (xs : List Val) (acc : GraphAcc),
    cypherInv acc → cypherInv (processValueList xs acc)
  | [], acc, h => by simpa [processValueList] using h
  | x :: rest, acc, h => by
      simp only [processValueList]
      exact processValueList_inv rest _ (processValue_inv x acc h)

end

theorem processItems_inv : ∀ (o : Obj) (acc : GraphAcc),
    cypherInv acc → cypherInv (processItems o acc)
  | [], acc, h => by simpa [processItems] using h
  | kv :: rest, acc, h => by
      simp only [processItems]
      exact processItems_inv rest _ (processValue_inv kv.2 acc h)

theorem processRecords_inv : ∀ (records : List Val) (acc : GraphAcc),
    cypherInv acc → cypherInv (processRecords records acc)
  | [], acc, h => by simpa [processRecords] using h
  | r :: rest, acc, h => by
      simp only [processRecords]
      exact processRecords_inv rest _ (processItems_inv (extract_items r) acc h)

theorem cypherAcc_inv (result : Val) : cypherInv (cypherAcc result) :=
  processRecords_inv (pyIterTop result) .empty
    ⟨fun e hm => absurd hm (List.not_mem_nil e), fun kv hm => absurd hm (List.not_mem_nil kv)⟩


/-- The vertex builder keeps its stringified id untouched (the
property loop skips the `id` key). -/
theorem gremlinVertexFromDict_id (kvs : Obj) :
    alGet (gremlinVertexFromDict kvs) "id" = some (.str (gremlinVertexId kvs)) := by
  unfold gremlinVertexFromDict
  rw [alGet_foldl_step_keep gremlinVertexStep_eq kvs _ "id"
    (fun kv _ he => by simp [he])]
  rfl

/-- A successfully built element-map edge always carries `source` and
`target` keys. -/
theorem gremlinEdgeFromDict_endpoints (kvs e : Obj) (h : gremlinEdgeFromDict kvs = .ok e) :
    alContains e "source" = true ∧ alContains e "target" = true := by
  unfold gremlinEdgeFromDict at h
  cases hsrc : gremlinEdgeEndpoint kvs "OUT" with
  | error err => rw [hsrc] at h; cases h
  | ok src =>
      rw [hsrc] at h
      cases htgt : gremlinEdgeEndpoint kvs "IN" with
      | error err => rw [htgt] at h; cases h
      | ok tgt =>
          rw [htgt] at h
          have he : e = kvs.foldl gremlinEdgePropStep
              [("source", .str src), ("target", .str tgt),
               ("label", .str (pyStr (alGetD kvs "label" (.str ""))))] := by
            cases h
            rfl
          subst he
          exact ⟨alContains_foldl_step_mono gremlinEdgePropStep_eq kvs _ "source" rfl,
                 alContains_foldl_step_mono gremlinEdgePropStep_eq kvs _ "target" rfl⟩

/-- The joint C5 invariant for the Gremlin accumulator. -/
def gremInv (acc : GraphAcc) : Prop :=
  (∀ e ∈ acc.edges, alContains e "source" = true ∧ alContains e "target" = true) ∧
  (∀ kv ∈ acc.nodes, ∃ s, alGet (kv.2 : Obj) "id" = some (Val.str s))

theorem gremlinProcessDict_inv (kvs : Obj) (acc g : GraphAcc)
    (h : gremlinProcessDict kvs acc = .ok g) (hi : gremInv acc) : gremInv g := by
  unfold gremlinProcessDict at h
  by_cases hio : (alContains kvs "IN" && alContains kvs "OUT") = true
  · rw [if_pos hio] at h
    cases hed : gremlinEdgeFromDict kvs with
    | error err => rw [hed] at h; cases h
    | ok e =>
        rw [hed] at h
        cases h
        refine ⟨?_, hi.2⟩
        intro e2 hm
        rcases List.mem_append.1 hm with hm | hm
        · exact hi.1 e2 hm
        · rcases List.mem_singleton.1 hm with rfl
          exact gremlinEdgeFromDict_endpoints kvs e2 hed
  · rw [if_neg hio] at h
    by_cases hid : alContains kvs "id" = true
    · rw [if_pos hid] at h
      by_cases hc : alContains acc.nodes (gremlinVertexId kvs) = true
      · rw [if_pos hc] at h
        cases h
        exact hi
      · rw [if_neg hc] at h
        cases h
        refine ⟨hi.1, ?_⟩
        intro kv hm
        rcases List.mem_append.1 hm with hm | hm
        · exact hi.2 kv hm
        · rcases List.mem_singleton.1 hm with rfl
          exact ⟨gremlinVertexId kvs, gremlinVertexFromDict_id kvs⟩
    · rw [if_neg hid] at h
      cases h
      exact hi

mutual

theorem gremlinProcessItem_inv : ∀ (v : Val) (acc g : GraphAcc),
    gremlinProcessItem v acc = .ok g → gremInv acc → gremInv g
  | .dict kvs, acc, g, h, hi => gremlinProcessDict_inv kvs acc g h hi
  | .list xs, acc, g, h, hi => by
      simp only [gremlinProcessItem] at h
      exact gremlinProcessList_inv xs acc g h hi
  | .null, acc, g, h, hi => by
      cases h
      exact hi
  | .str s, acc, g, h, hi => by
      cases h
      exact hi
  | .int n, acc, g, h, hi => by
      cases h
      exact hi
  | .bool b, acc, g, h, hi => by
      cases h
      exact hi

theorem gremlinProcessList_inv : ∀ (xs : List Val) (acc g : GraphAcc),
    gremlinProcessList xs acc = .ok g → gremInv acc → gremInv g
  | [], acc, g, h, hi => by
      cases h
      exact hi
  | x :: rest, acc, g, h, hi => by
      simp only [gremlinProcessList] at h
      cases hx : gremlinProcessItem x acc with
      | error err => rw [hx] at h; cases h
      | ok acc1 =>
          rw [hx] at h
          exact gremlinProcessList_inv rest acc1 g h (gremlinProcessItem_inv x acc acc1 hx hi)

end

theorem gremlinAcc_inv (result : Val) (g : GraphAcc) (h : gremlinAcc result = .ok g) :
    gremInv g := by
  unfold gremlinAcc at h
  exact gremlinProcessList_inv (pyIterTop result) .empty g h
    ⟨fun e hm => absurd hm (List.not_mem_nil e), fun kv hm => absurd hm (List.not_mem_nil kv)⟩

/-- A fresh SPARQL node has only string values. -/
theorem sparqlNewNode_allStr (labels : List (String × String)) (u : String) :
    objAllStr (sparqlNewNode labels u) := by
  intro p hm
  simp only [sparqlNewNode, List.mem_cons, List.mem_singleton, List.not_mem_nil, or_false] at hm
  rcases hm with rfl | rfl | rfl
  · exact ⟨_, rfl⟩
  · exact ⟨_, rfl⟩
  · exact ⟨_, rfl⟩

theorem objAllStr_alSet (o : Obj) (k s : String) (h : objAllStr o) :
    objAllStr (alSet o k (Val.str s)) :=
  alSet_forall (fun v => ∃ s2, v = Val.str s2) o k _ h ⟨s, rfl⟩

/-- The joint C5 invariant for the SPARQL accumulator. -/
def sparqlInv (acc : GraphAcc) : Prop :=
  (∀ kv ∈ acc.nodes, objAllStr (kv.2 : Obj)) ∧
  (∀ e ∈ acc.edges, edgeHasStrEndpoints e ∧ objAllStr e)

theorem sparqlEnsureNode_inv (labels : List (String × String)) (u : String)
    (acc : GraphAcc) (hi : sparqlInv acc) : sparqlInv (sparqlEnsureNode labels u acc) := by
  by_cases hc : alContains acc.nodes u = true
  · rwa [sparqlEnsureNode, if_pos hc]
  · rw [sparqlEnsureNode, if_neg hc]
    refine ⟨?_, hi.2⟩
    intro kv hm
    rcases List.mem_append.1 hm with hm | hm
    · exact hi.1 kv hm
    · rcases List.mem_singleton.1 hm with rfl
      exact sparqlNewNode_allStr labels u

theorem sparqlTriple_inv (labels : List (String × String)) (subj pred obj : String)
    (acc : GraphAcc) (hi : sparqlInv acc) :
    sparqlInv (sparqlTriple labels subj pred obj acc) := by
  unfold sparqlTriple
  have hi1 := sparqlEnsureNode_inv labels subj acc hi
  by_cases hc : (decide (obj ≠ "") && is_uri obj) = true
  · simp only [hc, if_true]
    have hi2 := sparqlEnsureNode_inv labels obj _ hi1
    refine ⟨hi2.1, ?_⟩
    intro e hm
    rcases List.mem_append.1 hm with hm | hm
    · exact hi2.2 e hm
    · rcases List.mem_singleton.1 hm with rfl
      refine ⟨⟨⟨subj, rfl⟩, ⟨obj, by rfl⟩⟩, ?_⟩
      intro p hm2
      simp only [List.mem_cons, List.mem_singleton, List.not_mem_nil, or_false] at hm2
      rcases hm2 with rfl | rfl | rfl | rfl
      · exact ⟨_, rfl⟩
      · exact ⟨_, rfl⟩
      · exact ⟨_, rfl⟩
      · exact ⟨_, rfl⟩
  · simp only [hc, Bool.false_eq_true, if_false]
    by_cases hne : obj ≠ ""
    · rw [if_pos hne]
      refine ⟨?_, hi1.2⟩
      exact alModify_forall _ _ subj _ hi1.1
        (fun o ho => objAllStr_alSet o (extract_local_name pred) obj ho)
    · rw [if_neg hne]
      exact hi1

theorem sparqlStep_inv (cfg : SparqlConfig) (labels : List (String × String))
    (acc : GraphAcc) (b : Val) (hi : sparqlInv acc) :
    sparqlInv (sparqlStep cfg labels acc b) := by
  unfold sparqlStep
  by_cases h1 : (decide (get_value b cfg.subject_var = "") ||
      decide (get_value b cfg.predicate_var = "")) = true
  · simp only [h1, if_true]
    exact hi
  · simp only [h1, Bool.false_eq_true, if_false]
    by_cases h2 : some (get_value b cfg.predicate_var) = cfg.node_label_predicate
    · rw [if_pos h2]
      exact hi
    · rw [if_neg h2]
      exact sparqlTriple_inv labels _ _ _ acc hi

theorem sparqlFold_inv (cfg : SparqlConfig) (labels : List (String × String)) :
    ∀ (bindings : List Val) (acc : GraphAcc), sparqlInv acc →
    sparqlInv (bindings.foldl (sparqlStep cfg labels) acc)
  | [], _, hi => hi
  | b :: rest, acc, hi => by
      rw [List.foldl_cons]
      exact sparqlFold_inv cfg labels rest _ (sparqlStep_inv cfg labels acc b hi)

theorem sparqlAcc_inv (cfg : SparqlConfig) (result : Val) (g : GraphAcc)
    (h : sparqlAcc cfg result = .ok g) : sparqlInv g := by
  unfold sparqlAcc at h
  cases hb : iter_bindings result with
  | error err => rw [hb] at h; cases h
  | ok bindings =>
      rw [hb] at h
      have hg : g = bindings.foldl (sparqlStep cfg (sparqlLabels cfg bindings)) .empty := by
        cases h
        rfl
      subst hg
      exact sparqlFold_inv cfg _ bindings .empty
        ⟨fun kv hm => absurd hm (List.not_mem_nil kv), fun e hm => absurd hm (List.not_mem_nil e)⟩


/-- `_item_to_node` always keeps an `id` key. -/
theorem item_to_node_has_id (cfg : GraphqlConfig) (kvs : Obj) :
    alContains (item_to_node cfg kvs) "id" = true := by
  unfold item_to_node
  exact alContains_foldl_step_mono (graphqlPropStep_eq cfg) kvs _ "id" rfl

/-- With the default id field, `_item_to_node` keeps its stringified id
untouched (the property loop skips the id field). -/
theorem item_to_node_id_str (cfg : GraphqlConfig) (kvs : Obj) (h : cfg.id_field = "id") :
    alGet (item_to_node cfg kvs) "id" = some (.str (graphqlNodeId cfg kvs)) := by
  unfold item_to_node
  rw [alGet_foldl_step_keep (graphqlPropStep_eq cfg) kvs _ "id"
    (fun kv _ he => by simp [he, h])]
  rfl

/-- `_item_to_edge` emits string-valued `source` and `target`. -/
theorem item_to_edge_endpoints (cfg : GraphqlConfig) (kvs : Obj) :
    edgeHasStrEndpoints (item_to_edge cfg kvs) :=
  ⟨⟨_, rfl⟩, ⟨_, rfl⟩⟩

/-- String-valued endpoints are in particular present. -/
theorem strEndpoints_contains (e : Obj) (h : edgeHasStrEndpoints e) :
    alContains e "source" = true ∧ alContains e "target" = true := by
  obtain ⟨⟨s, hs⟩, ⟨t, ht⟩⟩ := h
  refine ⟨?_, ?_⟩ <;> simp [alContains, hs, ht]

/-- The joint C5 invariant for the GraphQL accumulator.  Auto-detected
edges carry the raw `node["id"]`/`ref_node["id"]` values as endpoints,
so only key presence holds for edges in general; string endpoints hold
in explicit-path mode (proved separately below). -/
def graphqlInv (cfg : GraphqlConfig) (acc : GraphAcc) : Prop :=
  (∀ kv ∈ acc.nodes, alContains (kv.2 : Obj) "id" = true ∧
    (cfg.id_field = "id" → ∃ s, alGet (kv.2 : Obj) "id" = some (Val.str s))) ∧
  (∀ e ∈ acc.edges, alContains e "source" = true ∧ alContains e "target" = true)

/-- The node-value property used throughout the GraphQL invariant. -/
theorem item_to_node_prop (cfg : GraphqlConfig) (kvs : Obj) :
    alContains (item_to_node cfg kvs) "id" = true ∧
    (cfg.id_field = "id" → ∃ s, alGet (item_to_node cfg kvs) "id" = some (Val.str s)) :=
  ⟨item_to_node_has_id cfg kvs,
   fun h => ⟨graphqlNodeId cfg kvs, item_to_node_id_str cfg kvs h⟩⟩

theorem graphqlNodeStep_inv (cfg : GraphqlConfig) (acc : GraphAcc) (it : Val)
    (hi : graphqlInv cfg acc) : graphqlInv cfg (graphqlNodeStep cfg acc it) := by
  cases it with
  | dict kvs =>
      refine ⟨?_, hi.2⟩
      exact alSet_forall (fun o : Obj => alContains o "id" = true ∧ (cfg.id_field = "id" → ∃ s, alGet o "id" = some (Val.str s))) acc.nodes _ _ hi.1 (item_to_node_prop cfg kvs)
  | null => exact hi
  | str s => exact hi
  | int n => exact hi
  | bool b => exact hi
  | list xs => exact hi

theorem graphqlEdgeStep_inv (cfg : GraphqlConfig) (acc : GraphAcc) (it : Val)
    (hi : graphqlInv cfg acc) : graphqlInv cfg (graphqlEdgeStep cfg acc it) := by
  cases it with
  | dict kvs =>
      simp only [graphqlEdgeStep]
      split
      · refine ⟨hi.1, ?_⟩
        intro e hm
        rcases List.mem_append.1 hm with hm | hm
        · exact hi.2 e hm
        · rcases List.mem_singleton.1 hm with rfl
          exact strEndpoints_contains _ (item_to_edge_endpoints cfg kvs)
      · exact hi
  | null => exact hi
  | str s => exact hi
  | int n => exact hi
  | bool b => exact hi
  | list xs => exact hi

theorem graphqlFold_inv {β : Type} (P : GraphAcc → Prop)
    (step : GraphAcc → β → GraphAcc)
    (hstep : ∀ acc x, P acc → P (step acc x)) :
    ∀ (xs : List β) (acc : GraphAcc), P acc → P (xs.foldl step acc)
  | [], _, hi => hi
  | x :: rest, acc, hi => by
      rw [List.foldl_cons]
      exact graphqlFold_inv P step hstep rest _ (hstep acc x hi)

theorem autoRefStep_inv (cfg : GraphqlConfig) (nid : Val) (key : String) (acc : GraphAcc)
    (ref : Obj) (hi : graphqlInv cfg acc) :
    graphqlInv cfg (autoRefStep cfg nid key acc ref) := by
  unfold autoRefStep
  split
  · refine ⟨?_, ?_⟩
    · exact alSet_forall (fun o : Obj => alContains o "id" = true ∧ (cfg.id_field = "id" → ∃ s, alGet o "id" = some (Val.str s))) acc.nodes _ _ hi.1 (item_to_node_prop cfg ref)
    · intro e hm
      rcases List.mem_append.1 hm with hm | hm
      · exact hi.2 e hm
      · rcases List.mem_singleton.1 hm with rfl
        exact ⟨rfl, rfl⟩
  · exact hi

theorem autoRefListStep_inv (cfg : GraphqlConfig) (nid : Val) (key : String) (acc : GraphAcc)
    (it : Val) (hi : graphqlInv cfg acc) :
    graphqlInv cfg (autoRefListStep cfg nid key acc it) := by
  cases it with
  | dict ref => exact autoRefStep_inv cfg nid key acc ref hi
  | null => exact hi
  | str s => exact hi
  | int n => exact hi
  | bool b => exact hi
  | list xs => exact hi

theorem autoRefScanStep_inv (cfg : GraphqlConfig) (nid : Val) (acc : GraphAcc)
    (kv : String × Val) (hi : graphqlInv cfg acc) :
    graphqlInv cfg (autoRefScanStep cfg nid acc kv) := by
  obtain ⟨key, v⟩ := kv
  cases v with
  | dict ref => exact autoRefStep_inv cfg nid key acc ref hi
  | list items =>
      simp only [autoRefScanStep]
      exact graphqlFold_inv (graphqlInv cfg) (autoRefListStep cfg nid key)
        (fun a x h => autoRefListStep_inv cfg nid key a x h) items acc hi
  | null => exact hi
  | str s => exact hi
  | int n => exact hi
  | bool b => exact hi

theorem autoParentEdge_inv (cfg : GraphqlConfig) (parent : Option String) (nid : Val)
    (acc : GraphAcc) (hi : graphqlInv cfg acc) :
    graphqlInv cfg (autoParentEdge parent nid acc) := by
  cases parent with
  | none => exact hi
  | some p =>
      show graphqlInv cfg (if (decide (p ≠ "") && decide (nid ≠ Val.str p)) = true
        then _ else acc)
      split
      · refine ⟨hi.1, ?_⟩
        intro e hm
        rcases List.mem_append.1 hm with hm | hm
        · exact hi.2 e hm
        · rcases List.mem_singleton.1 hm with rfl
          exact ⟨rfl, rfl⟩
      · exact hi

mutual

theorem autoExtract_inv (cfg : GraphqlConfig) :
    ∀ (data : Val) (parent : Option String) (acc : GraphAcc),
    graphqlInv cfg acc → graphqlInv cfg (autoExtract cfg data parent acc)
  | .dict kvs, parent, acc, hi => by
      by_cases hn : alContains kvs cfg.id_field = true
      · simp only [autoExtract, hn, if_true]
        apply graphqlFold_inv (graphqlInv cfg)
          (autoRefScanStep cfg (nodeKey (item_to_node cfg kvs)))
          (fun a x h => autoRefScanStep_inv cfg (nodeKey (item_to_node cfg kvs)) a x h)
        apply autoParentEdge_inv
        exact ⟨alSet_forall (fun o : Obj => alContains o "id" = true ∧ (cfg.id_field = "id" → ∃ s, alGet o "id" = some (Val.str s))) acc.nodes _ _ hi.1 (item_to_node_prop cfg kvs), hi.2⟩
      · simp only [autoExtract, hn, Bool.false_eq_true, if_false]
        exact autoExtractKvs_inv cfg kvs parent acc hi
  | .list xs, parent, acc, hi => by
      simp only [autoExtract]
      exact autoExtractList_inv cfg xs parent acc hi
  | .null, _, acc, hi => by simpa [autoExtract] using hi
  | .str s, _, acc, hi => by simpa [autoExtract] using hi
  | .int n, _, acc, hi => by simpa [autoExtract] using hi
  | .bool b, _, acc, hi => by simpa [autoExtract] using hi

theorem autoExtractKvs_inv (cfg : GraphqlConfig) :
    ∀ (kvs : List (String × Val)) (parent : Option String) (acc : GraphAcc),
    graphqlInv cfg acc → graphqlInv cfg (autoExtractKvs cfg kvs parent acc)
  | [], _, acc, hi => by simpa [autoExtractKvs] using hi
  | kv :: rest, parent, acc, hi => by
      simp only [autoExtractKvs]
      exact autoExtractKvs_inv cfg rest parent _ (autoExtract_inv cfg kv.2 parent acc hi)

theorem autoExtractList_inv (cfg : GraphqlConfig) :
    ∀ (xs : List Val) (parent : Option String) (acc : GraphAcc),
    graphqlInv cfg acc → graphqlInv cfg (autoExtractList cfg xs parent acc)
  | [], _, acc, hi => by simpa [autoExtractList] using hi
  | x :: rest, parent, acc, hi => by
      simp only [autoExtractList]
      exact autoExtractList_inv cfg rest parent _ (autoExtract_inv cfg x parent acc hi)

end

theorem graphqlNodesBlock_inv (cfg : GraphqlConfig) (data : Val) (acc acc2 : GraphAcc)
    (h : graphqlNodesBlock cfg data acc = .ok acc2) (hi : graphqlInv cfg acc) :
    graphqlInv cfg acc2 := by
  unfold graphqlNodesBlock at h
  by_cases h1 : optTruthy cfg.nodes_path = true
  · rw [if_pos h1] at h
    cases hit : pyIterFor (pyOrEmptyList (get_path data (cfg.nodes_path.getD ""))) with
    | error err => rw [hit] at h; cases h
    | ok items =>
        rw [hit] at h
        cases h
        exact graphqlFold_inv (graphqlInv cfg) (graphqlNodeStep cfg)
          (fun a x hx => graphqlNodeStep_inv cfg a x hx) items acc hi
  · rw [if_neg h1] at h
    cases h
    exact hi

theorem graphqlEdgesBlock_inv (cfg : GraphqlConfig) (data : Val) (acc acc2 : GraphAcc)
    (h : graphqlEdgesBlock cfg data acc = .ok acc2) (hi : graphqlInv cfg acc) :
    graphqlInv cfg acc2 := by
  unfold graphqlEdgesBlock at h
  by_cases h1 : optTruthy cfg.edges_path = true
  · rw [if_pos h1] at h
    cases hit : pyIterFor (pyOrEmptyList (get_path data (cfg.edges_path.getD ""))) with
    | error err => rw [hit] at h; cases h
    | ok items =>
        rw [hit] at h
        cases h
        exact graphqlFold_inv (graphqlInv cfg) (graphqlEdgeStep cfg)
          (fun a x hx => graphqlEdgeStep_inv cfg a x hx) items acc hi
  · rw [if_neg h1] at h
    cases h
    exact hi

theorem graphqlAcc_inv (cfg : GraphqlConfig) (result : Val) (g : GraphAcc)
    (h : graphqlAcc cfg result = .ok g) : graphqlInv cfg g := by
  unfold graphqlAcc at h
  cases hnb : graphqlNodesBlock cfg (graphqlUnwrap result) .empty with
  | error err => rw [hnb] at h; cases h
  | ok acc1 =>
      rw [hnb] at h
      have h2 : (match graphqlEdgesBlock cfg (graphqlUnwrap result) acc1 with
          | Except.ok acc =>
              Except.ok (if (!optTruthy cfg.nodes_path && !optTruthy cfg.edges_path) = true
                then autoExtract cfg (graphqlUnwrap result) none acc else acc)
          | Except.error e => Except.error e) = Except.ok g := h
      cases heb : graphqlEdgesBlock cfg (graphqlUnwrap result) acc1 with
      | error err => rw [heb] at h2; cases h2
      | ok acc2 =>
          rw [heb] at h2
          have hi0 : graphqlInv cfg .empty :=
            ⟨fun kv hm => absurd hm (List.not_mem_nil kv),
             fun e hm => absurd hm (List.not_mem_nil e)⟩
          have hi2 := graphqlEdgesBlock_inv cfg _ acc1 acc2 heb
            (graphqlNodesBlock_inv cfg _ .empty acc1 hnb hi0)
          have hg : g = (if (!optTruthy cfg.nodes_path && !optTruthy cfg.edges_path) = true
              then autoExtract cfg (graphqlUnwrap result) none acc2 else acc2) := by
            cases h2
            rfl
          subst hg
          split
          · exact autoExtract_inv cfg _ none acc2 hi2
          · exact hi2

/-- The explicit `nodes_path` block never touches the edge list. -/
theorem graphqlNodesBlock_edgeList (cfg : GraphqlConfig) (data : Val) (acc acc2 : GraphAcc)
    (h : graphqlNodesBlock cfg data acc = .ok acc2) : acc2.edges = acc.edges := by
  unfold graphqlNodesBlock at h
  by_cases h1 : optTruthy cfg.nodes_path = true
  · rw [if_pos h1] at h
    cases hit : pyIterFor (pyOrEmptyList (get_path data (cfg.nodes_path.getD ""))) with
    | error err => rw [hit] at h; cases h
    | ok items =>
        rw [hit] at h
        cases h
        exact graphqlNodesFold_edges cfg items acc
  · rw [if_neg h1] at h
    cases h
    rfl

/-- One `edges_path` item preserves all-string edge endpoints. -/
theorem graphqlEdgeStep_strEdges (cfg : GraphqlConfig) (acc : GraphAcc) (it : Val)
    (h : ∀ e ∈ acc.edges, edgeHasStrEndpoints e) :
    ∀ e ∈ (graphqlEdgeStep cfg acc it).edges, edgeHasStrEndpoints e := by
  cases it with
  | dict kvs =>
      simp only [graphqlEdgeStep]
      split
      · intro e hm
        rcases List.mem_append.1 hm with hm | hm
        · exact h e hm
        · rcases List.mem_singleton.1 hm with rfl
          exact item_to_edge_endpoints cfg kvs
      · exact h
  | null => exact h
  | str s => exact h
  | int n => exact h
  | bool b => exact h
  | list xs => exact h

/-- With an explicit path configured, auto-detection is skipped, every
edge comes from `_item_to_edge`, and so every returned edge has
string-valued endpoints. -/
theorem graphqlAcc_explicit_strEdges (cfg : GraphqlConfig) (result : Val) (g : GraphAcc)
    (hor : (optTruthy cfg.nodes_path || optTruthy cfg.edges_path) = true)
    (h : graphqlAcc cfg result = .ok g) : ∀ e ∈ g.edges, edgeHasStrEndpoints e := by
  unfold graphqlAcc at h
  cases hnb : graphqlNodesBlock cfg (graphqlUnwrap result) .empty with
  | error err => rw [hnb] at h; cases h
  | ok acc1 =>
      rw [hnb] at h
      have h2 : (match graphqlEdgesBlock cfg (graphqlUnwrap result) acc1 with
          | Except.ok acc =>
              Except.ok (if (!optTruthy cfg.nodes_path && !optTruthy cfg.edges_path) = true
                then autoExtract cfg (graphqlUnwrap result) none acc else acc)
          | Except.error e => Except.error e) = Except.ok g := h
      cases heb : graphqlEdgesBlock cfg (graphqlUnwrap result) acc1 with
      | error err => rw [heb] at h2; cases h2
      | ok acc2 =>
          rw [heb] at h2
          have hauto : (!optTruthy cfg.nodes_path && !optTruthy cfg.edges_path) = false := by
            cases hn : optTruthy cfg.nodes_path <;> cases he : optTruthy cfg.edges_path <;>
              simp_all
          rw [hauto] at h2
          simp only [Bool.false_eq_true, if_false] at h2
          have hg : g = acc2 := by
            cases h2
            rfl
          subst hg
          have h1 : ∀ e ∈ acc1.edges, edgeHasStrEndpoints e := by
            rw [graphqlNodesBlock_edgeList cfg _ _ acc1 hnb]
            intro e hm
            exact absurd hm (List.not_mem_nil e)
          unfold graphqlEdgesBlock at heb
          by_cases he1 : optTruthy cfg.edges_path = true
          · rw [if_pos he1] at heb
            cases hit : pyIterFor (pyOrEmptyList (get_path (graphqlUnwrap result)
                (cfg.edges_path.getD ""))) with
            | error err => rw [hit] at heb; cases heb
            | ok items =>
                rw [hit] at heb
                have hfold : items.foldl (graphqlEdgeStep cfg) acc1 = g := by
                  cases heb
                  rfl
                rw [← hfold]
                exact graphqlFold_inv (fun a => ∀ e ∈ a.edges, edgeHasStrEndpoints e)
                  (graphqlEdgeStep cfg)
                  (fun a x hx => graphqlEdgeStep_strEdges cfg a x hx) items acc1 h1
          · rw [if_neg he1] at heb
            have hacc : acc1 = g := by
              cases heb
              rfl
            rw [← hacc]
            exact h1


/-! ## Claim C5 -/

/-- A `GraphQLConverter(id_field="uuid")` configuration. -/
def c5cfg : GraphqlConfig := ⟨"uuid", "name", none, none, "source", "target"⟩

/-- `{"uuid": "a", "id": 7, "child": {"uuid": "b", "id": 7}}`. -/
def c5refInput : Val :=
  .dict [("uuid", .str "a"), ("id", .int 7),
         ("child", .dict [("uuid", .str "b"), ("id", .int 7)])]

/-- C5 (counterexample): the Cypher converter emits a node whose `id`
value is the integer `1` (not a string) and whose `properties` value is
a nested mapping — raw entries are copied verbatim onto the node dict;
and in GraphQL auto-detection with a non-default id field, a scalar
`id` entry overwrites the built node's id, so the reference edge
carries the raw integer `7` as both endpoints and the two mappings
with distinct `uuid`s collapse into one node (keyed by the raw
`node["id"]` value `7`). -/
theorem c5_counterexample :
    (alGet ((CypherConverter.convert c2input).nodes.headI) "id" = some (.int 1) ∧
     alGet ((CypherConverter.convert c2input).nodes.headI) "properties" =
       some (.dict [("name", .str "Alice")])) ∧
    GraphQLConverter.convert c5cfg c5refInput =
      .ok ⟨[[("id", .int 7), ("label", .str "b")]],
           [[("source", .int 7), ("target", .int 7), ("label", .str "child")]]⟩ := by decide

/-- C5 (amended): every emitted edge dict carries `source` and `target`
keys — string-valued for Cypher/GQL (mapping relationships), SPARQL and
GraphQL explicit-path mode, present but possibly non-string for Gremlin
(whose element-map entries may overwrite them verbatim) and for GraphQL
auto-detection (whose edges carry the raw `node["id"]` values); every
emitted node dict carries an `id` key — Gremlin ids are strings, SPARQL
nodes and edges are entirely string-valued, GraphQL ids are strings for
the default id field, while Cypher/GQL copies a mapping's raw id value
and property values verbatim (possibly non-string or nested). -/
theorem c5_theorem :
    (∀ result : Val, (∀ e ∈ (cypherAcc result).edges, edgeHasStrEndpoints e) ∧
       (∀ kv ∈ (cypherAcc result).nodes, alContains (kv.2 : Obj) "id" = true)) ∧
    (∀ (result : Val) (g : GraphAcc), gremlinAcc result = .ok g →
       (∀ e ∈ g.edges, alContains e "source" = true ∧ alContains e "target" = true) ∧
       (∀ kv ∈ g.nodes, ∃ s, alGet (kv.2 : Obj) "id" = some (Val.str s))) ∧
    (∀ (cfg : SparqlConfig) (result : Val) (g : GraphAcc), sparqlAcc cfg result = .ok g →
       (∀ kv ∈ g.nodes, objAllStr (kv.2 : Obj)) ∧
       (∀ e ∈ g.edges, edgeHasStrEndpoints e ∧ objAllStr e)) ∧
    (∀ (cfg : GraphqlConfig) (result : Val) (g : GraphAcc), graphqlAcc cfg result = .ok g →
       (∀ kv ∈ g.nodes, alContains (kv.2 : Obj) "id" = true ∧
          (cfg.id_field = "id" → ∃ s, alGet (kv.2 : Obj) "id" = some (Val.str s))) ∧
       (∀ e ∈ g.edges, alContains e "source" = true ∧ alContains e "target" = true) ∧
       ((optTruthy cfg.nodes_path || optTruthy cfg.edges_path) = true →
          ∀ e ∈ g.edges, edgeHasStrEndpoints e)) :=
  ⟨fun result => cypherAcc_inv result,
   fun result g h => gremlinAcc_inv result g h,
   fun cfg result g h => sparqlAcc_inv cfg result g h,
   fun cfg result g h => ⟨(graphqlAcc_inv cfg result g h).1, (graphqlAcc_inv cfg result g h).2,
     fun hor => graphqlAcc_explicit_strEdges cfg result g hor h⟩⟩

/-- C5 witness: the Gremlin clause applied at a vertex with an integer
id — the emitted node's id is the stringified `"7"`. -/
theorem c5_witness :
    gremlinAcc (.list [.dict [("id", .int 7)]]) = .ok ⟨[("7", [("id", .str "7")])], []⟩ ∧
    (∃ s, alGet ([("id", Val.str "7")] : Obj) "id" = some (Val.str s)) := by
  refine ⟨by decide, ?_⟩
  have h := c5_theorem.2.1 (.list [.dict [("id", .int 7)]])
    ⟨[("7", [("id", .str "7")])], []⟩ (by decide)
  exact h.2 ("7", [("id", Val.str "7")]) (by decide)

end AG
